import Mathlib

/-!
# Verification of the cs2-config-formatter core (`src/cfgfmt/formatter.py`)

A shallow embedding of the formatter engine.  Text is modelled as `List Char`
(named `Str` below); Python string operations become explicit recursive
functions on character lists.  The functions keep the names of the Python
source (`detab`, `rstrip_ws`, `sig_no_ws`, `find_comment_pos_outside_quotes`,
`split_indent_key_rest`, `split_two_quoted`, `is_separator_comment_line`,
`is_block_boundary_B`, `format_cmd_lines`, `format_text`, ...).

The one fatal error of the source (`ValueError` on an unknown align mode)
is modelled by `format_text` returning `Except Str FormatResult`.
-/

namespace Cfgfmt

/-- Text is a list of characters. -/
abbrev Str := List Char

/-- Python `str.isspace()` on a single character: the Unicode whitespace
set used by `str.strip()` / `str.split()` and the `ch.isspace()` calls of
the source.  Covers the documented CPython set. -/
def pyIsSpace (c : Char) : Bool :=
  let n := c.toNat
  (9 ≤ n && n ≤ 13) || (28 ≤ n && n ≤ 31) || n = 32 || n = 0x85 || n = 0xa0 ||
    n = 0x1680 || (0x2000 ≤ n && n ≤ 0x200a) || n = 0x2028 || n = 0x2029 ||
    n = 0x202f || n = 0x205f || n = 0x3000

/-- The line-break characters of Python `str.splitlines()`
(`\n \r \v \f \x1c \x1d \x1e \x85    `; `\r\n` is one break). -/
def isLineBreak (c : Char) : Bool :=
  let n := c.toNat
  n = 10 || n = 13 || n = 11 || n = 12 || n = 28 || n = 29 || n = 30 ||
    n = 0x85 || n = 0x2028 || n = 0x2029

/-- The ASCII whitespace class `[ \t\r\f\v]` of the source's `WS_RE` and
`rstrip_ws` (newline is deliberately absent in the source). -/
def isCfgWs (c : Char) : Bool :=
  c = ' ' || c = '\t' || c = '\r' || c = '\x0c' || c = '\x0b'

/-- Python `str.lower()` on one character.  Modelled from the spec: the
source calls the Python library function; only ASCII case mapping is
exercised by the formatter's comparisons (`echo`, `bind`, `alias`,
`echo;`), so the model lowers ASCII letters and keeps the rest. -/
def pyLowerChar (c : Char) : Char :=
  if 'A' ≤ c && c ≤ 'Z' then Char.ofNat (c.toNat + 32) else c

/-- Python `str.lower()`. -/
def pyLower (s : Str) : Str := s.map pyLowerChar

/-- Python `str.lstrip()` (no argument: Unicode whitespace). -/
def pyLstrip (s : Str) : Str := s.dropWhile pyIsSpace

/-- Python `str.rstrip()` (no argument: Unicode whitespace). -/
def pyRstrip (s : Str) : Str := (s.reverse.dropWhile pyIsSpace).reverse

/-- Python `str.strip()` (no argument: Unicode whitespace). -/
def pyStrip (s : Str) : Str := pyRstrip (pyLstrip s)

/-- Python `str.strip("|")`: strip pipe characters from both ends
(used by the echo-table field splitting). -/
def stripPipes (s : Str) : Str :=
  ((s.dropWhile (fun c => c = '|')).reverse.dropWhile (fun c => c = '|')).reverse

/-- Python `str.splitlines()`, worker: `acc` holds the current line reversed.
A `\r` immediately followed by `\n` is a single break. -/
def splitlinesGo (acc : Str) : Str → List Str
  | [] => if acc.isEmpty then [] else [acc.reverse]
  | '\r' :: '\n' :: rest => acc.reverse :: splitlinesGo [] rest
  | c :: rest =>
    if isLineBreak c then acc.reverse :: splitlinesGo [] rest
    else splitlinesGo (c :: acc) rest

/-- Python `str.splitlines()`. -/
def pySplitlines (s : Str) : List Str := splitlinesGo [] s

/-- Python `"\r\n" in raw_text` (substring test for the CRLF pair). -/
def containsCRLF : Str → Bool
  | [] => false
  | c :: rest =>
    (c = '\r' && rest.head? = some '\n') || containsCRLF rest

/-- Python `sep.join(parts)`. -/
def joinSep (sep : Str) : List Str → Str
  | [] => []
  | [x] => x
  | x :: y :: xs => x ++ sep ++ joinSep sep (y :: xs)

/-- Python `s.endswith(suffix)`. -/
def endsWithL (s suffix : Str) : Bool := suffix.isSuffixOf s

/-- Python `core.split("|")` (split on every pipe; `[""]` on empty input,
like Python). -/
def splitOnPipe : Str → List Str
  | [] => [[]]
  | c :: rest =>
    let r := splitOnPipe rest
    if c = '|' then [] :: r
    else
      match r with
      | y :: ys => (c :: y) :: ys
      | [] => [[c]]

/-- `unicodedata.combining(ch) != 0`.  Modelled from the spec: the Unicode
table lives in the Python library, outside the repository; the model covers
the principal combining-mark blocks (the formatter only consults it to
compute display widths; ASCII behaviour, which all claims exercise, agrees
exactly). -/
def combining (c : Char) : Bool :=
  let n := c.toNat
  (0x0300 ≤ n && n ≤ 0x036f) || (0x0483 ≤ n && n ≤ 0x0489) ||
    (0x0591 ≤ n && n ≤ 0x05bd) || (0x064b ≤ n && n ≤ 0x065f) ||
    (0x0e31 ≤ n && n ≤ 0x0e3a) || (0x1ab0 ≤ n && n ≤ 0x1aff) ||
    (0x1dc0 ≤ n && n ≤ 0x1dff) || (0x20d0 ≤ n && n ≤ 0x20ff) ||
    (0xfe20 ≤ n && n ≤ 0xfe2f)

/-- `unicodedata.east_asian_width(ch) in ("W", "F")`.  Modelled from the
spec: Python library table, outside the repository; the model covers the
Wide/Fullwidth CJK blocks (ASCII and CJK behaviour agrees exactly). -/
def eastAsianWF (c : Char) : Bool :=
  let n := c.toNat
  (0x1100 ≤ n && n ≤ 0x115f) || (0x2e80 ≤ n && n ≤ 0x303e) ||
    (0x3041 ≤ n && n ≤ 0x33ff) || (0x3400 ≤ n && n ≤ 0x4dbf) ||
    (0x4e00 ≤ n && n ≤ 0x9fff) || (0xa000 ≤ n && n ≤ 0xa4cf) ||
    (0xa960 ≤ n && n ≤ 0xa97f) || (0xac00 ≤ n && n ≤ 0xd7a3) ||
    (0xf900 ≤ n && n ≤ 0xfaff) || (0xfe10 ≤ n && n ≤ 0xfe19) ||
    (0xfe30 ≤ n && n ≤ 0xfe52) || (0xfe54 ≤ n && n ≤ 0xfe66) ||
    (0xfe68 ≤ n && n ≤ 0xfe6b) || (0xff01 ≤ n && n ≤ 0xff60) ||
    (0xffe0 ≤ n && n ≤ 0xffe6) || (0x1f300 ≤ n && n ≤ 0x1f9ff) ||
    (0x20000 ≤ n && n ≤ 0x2fffd) || (0x30000 ≤ n && n ≤ 0x3fffd)

/-- `vis_width`: estimated display width; wide/fullwidth count 2,
combining marks count 0, everything else 1. -/
def vis_width (s : Str) : Nat :=
  s.foldl (fun w c => if combining c then w else if eastAsianWF c then w + 2 else w + 1) 0

/-- `detab`: `s.replace("\t", " " * tab_width)`. -/
def detab (s : Str) (tab_width : Nat) : Str :=
  match s with
  | [] => []
  | c :: rest =>
    if c = '\t' then List.replicate tab_width ' ' ++ detab rest tab_width
    else c :: detab rest tab_width

/-- `rstrip_ws`: `s.rstrip(" \t\r\f\v")`. -/
def rstrip_ws (s : Str) : Str := (s.reverse.dropWhile isCfgWs).reverse

/-- `sig_no_ws`: `WS_RE.sub("", s)` — delete every `[ \t\r\f\v]` character. -/
def sig_no_ws (s : Str) : Str := s.filter (fun c => !isCfgWs c)

/-- `find_comment_pos_outside_quotes`, worker: scans `s[i:]` carrying the
in-quote flag; the Python loop runs `i` over `range(len(s) - 1)`, so a
lone final character is never examined. -/
def findCommentGo (s : Str) (i : Nat) (inq : Bool) : Option Nat :=
  match s with
  | c1 :: c2 :: rest =>
    if c1 = '"' then findCommentGo (c2 :: rest) (i + 1) (!inq)
    else if !inq && c1 = '/' && c2 = '/' then some i
    else findCommentGo (c2 :: rest) (i + 1) inq
  | _ => none

/-- `find_comment_pos_outside_quotes`: position of the first `//` that lies
outside double quotes, or `none`. -/
def find_comment_pos_outside_quotes (s : Str) : Option Nat :=
  findCommentGo s 0 false

/-- `split_indent_key_rest`: split a code part into
`(indent, key, rest)`; `none` when the string is empty or whitespace-only.
For the key `echo` (case-insensitive) the whitespace after the key is kept
verbatim inside `rest`. -/
def split_indent_key_rest (code_part : Str) : Option (Str × Str × Str) :=
  let indent := code_part.takeWhile pyIsSpace
  let s2 := code_part.dropWhile pyIsSpace
  match s2 with
  | [] => none
  | _ =>
    let key := s2.takeWhile (fun c => !pyIsSpace c)
    let rest_raw := s2.dropWhile (fun c => !pyIsSpace c)
    let rest := if pyLower key = "echo".data then rest_raw
                else rest_raw.dropWhile pyIsSpace
    some (indent, key, rest)

/-- Parse one leading double-quoted string: on `"body" tail` returns the
quoted string (quotes included) and the remainder after the closing quote;
`none` when the head is no quote or the closing quote is missing.  (Helper
for `split_two_quoted`; it matches the index scans of the Python source.) -/
def parseQuoted (s : Str) : Option (Str × Str) :=
  match s with
  | '"' :: t =>
    (match t.dropWhile (fun c => c ≠ '"') with
     | '"' :: t2 => some ('"' :: t.takeWhile (fun c => c ≠ '"') ++ ['"'], t2)
     | _ => none)
  | _ => none

/-- `split_two_quoted`: parse `rest` as optional whitespace, a first
double-quoted string, whitespace, a second double-quoted string, and a
verbatim tail; `none` when that shape is absent. -/
def split_two_quoted (rest : Str) : Option (Str × Str × Str) :=
  match parseQuoted (rest.dropWhile pyIsSpace) with
  | none => none
  | some (q1, r1) =>
    match parseQuoted (r1.dropWhile pyIsSpace) with
    | none => none
    | some (q2, tail) => some (q1, q2, tail)

/-- `is_separator_comment_line`: a decorative comment banner.  The ratio
test `deco / max(1, len(body)) >= 0.60` is modelled by cross-multiplication
(`5 * deco ≥ 3 * max 1 len`); at the threshold `3/5` the Python float
comparison agrees with the rational one. -/
def is_separator_comment_line (line : Str) : Bool :=
  let s := pyLstrip line
  if !("//".data.isPrefixOf s) then false
  else
    let body := pyLstrip (s.drop 2)
    if !("+".data.isPrefixOf body) then false
    else if body.contains '*' then true
    else
      let deco := (body.filter (fun c => "#-_=+|".data.contains c)).length
      decide (5 * deco ≥ 3 * max 1 body.length) && decide (body.length ≥ 10)

/-- `is_block_boundary_B`: blank line / `echo;` / separator banner. -/
def is_block_boundary_B (line : Str) : Bool :=
  let s := pyLower (pyStrip line)
  if s = [] then true
  else if s = "echo;".data then true
  else if is_separator_comment_line line then true
  else false

/-- The three record kinds produced by the pre-parse of `format_text`. -/
inductive Kind where
  | boundary
  | pass
  | cmd
deriving DecidableEq, Repr, Inhabited

/-- One line record (the loosely-typed dict of the source as a structure;
non-command records leave the token fields empty). -/
structure Rec where
  kind : Kind
  orig : Str
  line : Str
  lineno : Nat
  indent : Str := []
  key : Str := []
  keyLower : Str := []
  rest : Str := []
  comment : Str := []
deriving DecidableEq, Repr, Inhabited

/-- `SPECIAL_ALIGN_KEYS_DEFAULT = {"bind", "alias"}` (membership-only use,
modelled as a list). -/
def SPECIAL_ALIGN_KEYS_DEFAULT : List Str := ["bind".data, "alias".data]

/-- `FormatOptions` (defaults of the source module). -/
structure FormatOptions where
  align_mode : Str := "global".data
  tab_width : Nat := 4
  key_cap : Nat := 40
  comment_cap : Nat := 90
  special_align_keys : Option (List Str) := none
  echo_align_tables : Bool := true
deriving DecidableEq, Repr

/-- `FormatResult`.  The `stats` dict of the source is modelled by its only
behaviourally relevant component, the ordered `sig_fail_lines` list (the
remaining counters are write-only bookkeeping that never feeds back into
the produced text); the final `isinstance(x, int)` filter of the source is
the identity here because every recorded line number is an int. -/
structure FormatResult where
  out_text : Str
  changed : Bool
  sig_fail_lines : List Nat
deriving DecidableEq, Repr

/-- `options.special_align_keys or set(SPECIAL_ALIGN_KEYS_DEFAULT)`:
a falsy value (`None` or the empty set) selects the default set. -/
def effectiveSpecialKeys (o : Option (List Str)) : List Str :=
  match o with
  | none => SPECIAL_ALIGN_KEYS_DEFAULT
  | some s => if s.isEmpty then SPECIAL_ALIGN_KEYS_DEFAULT else s

/-- Chunk-scoped alignment parameters of `format_cmd_lines`
(`value_col`, `second_col`, `echo_col_widths`) together with the
closed-over configuration. -/
structure ChunkCtx where
  value_col : Nat
  second_col : Nat
  echo_col_widths : List Nat
  special : List Str
  echoFlag : Bool
deriving Repr

/-- `key_widths`: `len(indent) + len(key)` of every command record with a
non-empty rest. -/
def key_widths (cmd_recs : List Rec) : List Nat :=
  cmd_recs.filterMap fun r =>
    if r.kind = Kind.cmd && !r.rest.isEmpty then
      some (r.indent.length + r.key.length)
    else none

/-- `max_key = min(max(key_widths), key_cap) if key_widths else 0`. -/
def max_key_of (cmd_recs : List Rec) (key_cap : Nat) : Nat :=
  match key_widths cmd_recs with
  | [] => 0
  | ws => min (ws.foldl max 0) key_cap

/-- `q1_lens`: lengths of the first quoted string of every special-key
command record whose rest splits into two quoted strings. -/
def q1_lens (cmd_recs : List Rec) (special : List Str) : List Nat :=
  cmd_recs.filterMap fun r =>
    if r.kind = Kind.cmd && !r.rest.isEmpty && special.contains r.keyLower then
      (split_two_quoted r.rest).map fun t => t.1.length
    else none

/-- `is_echo_table_candidate` (echo menu-table heuristic). -/
def is_echo_table_candidate (echoFlag : Bool) (r : Rec) : Bool :=
  if !echoFlag then false
  else if r.kind ≠ Kind.cmd then false
  else if !r.comment.isEmpty then false
  else if r.keyLower ≠ "echo".data then false
  else
    let body := pyStrip r.rest
    if !body.contains '|' then false
    else if "~~~".data.isPrefixOf body then false
    else if body.contains '【' && body.contains '】' &&
            (body.contains '*' || body.contains '~') then false
    else
      let pipe_cnt := body.count '|'
      let has_cjk := body.any fun c => 0x4e00 ≤ c.toNat && c.toNat ≤ 0x9fff
      let has_alnum := body.any fun c =>
        ('A' ≤ c && c ≤ 'Z') || ('a' ≤ c && c ≤ 'z') || ('0' ≤ c && c ≤ '9')
      let has_art_chunk := hasArtChunk body
      if !has_cjk && !has_alnum && pipe_cnt ≤ 3 then false
      else if !has_cjk && has_art_chunk && pipe_cnt ≤ 2 then false
      else true
where
  /-- `re.search(r"[_/\\]{2,}", body)`: two adjacent characters from
  `_ / \`. -/
  hasArtChunk : Str → Bool
    | c1 :: c2 :: rest =>
      (("_/\\".data.contains c1) && ("_/\\".data.contains c2)) ||
        hasArtChunk (c2 :: rest)
    | _ => false

/-- The `(fields, leading_pipe, trailing_pipe)` decomposition of an echo
table row (recomputed where the source caches it on the record). -/
def echoFields (r : Rec) : List Str × Bool × Bool :=
  let body := pyStrip r.rest
  let lead := "|".data.isPrefixOf body
  let trail := endsWithL body "|".data
  let core := if lead || trail then stripPipes body else body
  ((splitOnPipe core).map pyStrip, lead, trail)

/-- `echo_rows`: the field lists of the non-framed echo table candidates. -/
def echo_rows (cmd_recs : List Rec) (echoFlag : Bool) : List (List Str) :=
  cmd_recs.filterMap fun r =>
    if is_echo_table_candidate echoFlag r then
      let (fields, lead, trail) := echoFields r
      if lead || trail then none else some fields
    else none

/-- Per-column maxima of visual width over the table rows
(`echo_col_widths`; empty when there is no non-framed row). -/
def echo_col_widths_of (rows : List (List Str)) : List Nat :=
  let max_cols := (rows.map List.length).foldl max 0
  if rows.isEmpty || max_cols = 0 then []
  else (List.range max_cols).map fun i =>
    rows.foldl (fun a fields => max a (vis_width ((fields.drop i).headD []))) 0

/-- Alignment parameters for one chunk. -/
def chunk_ctx (cmd_recs : List Rec) (key_cap : Nat) (special : List Str)
    (echoFlag : Bool) : ChunkCtx :=
  let max_key := max_key_of cmd_recs key_cap
  let value_col := max_key + 1
  let lens := q1_lens cmd_recs special
  let max_q1_len := lens.foldl max 0
  { value_col := value_col
    second_col := value_col + max_q1_len + 1
    echo_col_widths := echo_col_widths_of (echo_rows cmd_recs echoFlag)
    special := special
    echoFlag := echoFlag }

/-- The `code_fmt` of one command record (the per-record body of the
`code_fmts` loop; all alignment inputs are chunk parameters, so the loop is
a map). -/
def code_fmt_cmd (ctx : ChunkCtx) (r : Rec) : Str :=
  if r.keyLower = "echo".data then
    if is_echo_table_candidate ctx.echoFlag r && !ctx.echo_col_widths.isEmpty then
      let (fields, lead, trail) := echoFields r
      let body_fmt :=
        if lead || trail then
          let body_mid := pyStrip (joinSep " | ".data fields)
          (if lead then "| ".data else []) ++ body_mid ++
            (if trail then " |".data else [])
        else
          let padded := (fields.enum.map fun p =>
            let w := ((ctx.echo_col_widths.drop p.1).headD (vis_width p.2))
            p.2 ++ List.replicate (w - vis_width p.2) ' ')
          pyRstrip (joinSep " | ".data padded)
      r.indent ++ r.key ++ ' ' :: body_fmt
    else
      if r.rest.isEmpty then r.indent ++ r.key else r.indent ++ r.key ++ r.rest
  else if r.rest.isEmpty then r.indent ++ r.key
  else
    let left_len := r.indent.length + r.key.length
    let pad1 := max 1 (ctx.value_col - left_len)
    let twoq := if ctx.special.contains r.keyLower then split_two_quoted r.rest
                else none
    match twoq with
    | some (q1, q2, tail) =>
      let cur_after_q1 := left_len + pad1 + q1.length
      let pad2 := max 1 (ctx.second_col - cur_after_q1)
      r.indent ++ r.key ++ List.replicate pad1 ' ' ++ q1 ++
        List.replicate pad2 ' ' ++ q2 ++ tail
    | none => r.indent ++ r.key ++ List.replicate pad1 ' ' ++ r.rest

/-- `code_lens_for_comment` and
`comment_target = min(max(code_lens_for_comment), comment_cap)`
(`none` when no command record carries a comment). -/
def comment_target_of (ctx : ChunkCtx) (cmd_recs : List Rec)
    (comment_cap : Nat) : Option Nat :=
  let lens := cmd_recs.filterMap fun r =>
    if r.kind = Kind.cmd && !r.comment.isEmpty then
      some (code_fmt_cmd ctx r).length
    else none
  match lens with
  | [] => none
  | ls => some (min (ls.foldl max 0) comment_cap)

/-- Render one record of a chunk: the emitted line plus the recorded line
number when the signature guard fired (the per-record body of the output
loop of `format_cmd_lines`). -/
def render_rec (tab_width : Nat) (ctx : ChunkCtx) (target : Option Nat)
    (r : Rec) : Str × Option Nat :=
  let normalized_orig := rstrip_ws (detab r.orig tab_width)
  if r.kind ≠ Kind.cmd then
    let new_line := r.line
    if sig_no_ws r.orig = sig_no_ws new_line then (new_line, none)
    else (normalized_orig, some r.lineno)
  else
    let code_fmt := code_fmt_cmd ctx r
    let new_line :=
      if !r.comment.isEmpty then
        match target with
        | some t =>
          if code_fmt.length ≤ t then
            code_fmt ++ List.replicate (max 1 (t + 1 - code_fmt.length)) ' ' ++
              r.comment
          else code_fmt ++ ' ' :: r.comment
        | none => code_fmt ++ ' ' :: r.comment
      else code_fmt
    let new_line2 := rstrip_ws (detab new_line tab_width)
    if sig_no_ws r.orig = sig_no_ws new_line2 then (new_line2, none)
    else (normalized_orig, some r.lineno)

/-- `format_cmd_lines`: align one chunk; returns the emitted lines and the
line numbers appended to `stats["sig_fail_lines"]`, in loop order. -/
def format_cmd_lines (cmd_recs : List Rec) (key_cap comment_cap tab_width : Nat)
    (special : List Str) (echoFlag : Bool) : List Str × List Nat :=
  let ctx := chunk_ctx cmd_recs key_cap special echoFlag
  let target := comment_target_of ctx cmd_recs comment_cap
  let ps := cmd_recs.map (render_rec tab_width ctx target)
  (ps.map Prod.fst, ps.filterMap Prod.snd)

/-- Classify one input line into a record (the body of the pre-parse loop
of `format_text`). -/
def parse_line (mode : Str) (tab_width : Nat) (lineno : Nat) (orig : Str) : Rec :=
  let line := rstrip_ws (detab orig tab_width)
  let base : Rec := { kind := Kind.pass, orig := orig, line := line, lineno := lineno }
  if mode = "block".data && is_block_boundary_B line then
    { base with kind := Kind.boundary }
  else if "//".data.isPrefixOf (pyLstrip line) then base
  else if pyStrip line = [] then { base with kind := Kind.boundary }
  else
    let parts :=
      match find_comment_pos_outside_quotes line with
      | none => (line, ([] : Str))
      | some cpos => (rstrip_ws (line.take cpos), line.drop cpos)
    match split_indent_key_rest parts.1 with
    | none => base
    | some (indent, key, rest) =>
      { base with kind := Kind.cmd, indent := indent, key := key,
                  keyLower := pyLower key, rest := rest, comment := parts.2 }

/-- `enumerate(lines, start=1)` plus the parse of each line. -/
def parse_recs (mode : Str) (tab_width : Nat) : Nat → List Str → List Rec
  | _, [] => []
  | n, l :: rest => parse_line mode tab_width n l :: parse_recs mode tab_width (n + 1) rest

/-- `handle_boundary`: boundary (and in global reassembly the queue-free)
emission with the signature guard. -/
def handle_boundary (tab_width : Nat) (r : Rec) : Str × Option Nat :=
  let new_line := r.line
  if sig_no_ws r.orig = sig_no_ws new_line then (new_line, none)
  else (rstrip_ws (detab r.orig tab_width), some r.lineno)

/-- Global-mode reassembly: walk the records, emitting boundary lines via
`handle_boundary` and pulling each non-boundary line from the formatted
queue (the `iter`/`next` loop of the source). -/
def assemble_global (tab_width : Nat) : List Rec → List Str → List Str
  | [], _ => []
  | r :: rs, q =>
    if r.kind = Kind.boundary then
      (handle_boundary tab_width r).1 :: assemble_global tab_width rs q
    else
      match q with
      | x :: q2 => x :: assemble_global tab_width rs q2
      | [] => assemble_global tab_width rs []

/-- Block-mode loop: accumulate command records, flush the pending block at
each boundary, and flush the remainder at the end (lines and recorded
failures in source order). -/
def run_block (key_cap comment_cap tab_width : Nat) (special : List Str)
    (echoFlag : Bool) : List Rec → List Rec → List Str × List Nat
  | [], block =>
    if block.isEmpty then ([], [])
    else format_cmd_lines block key_cap comment_cap tab_width special echoFlag
  | r :: rs, block =>
    if r.kind = Kind.boundary then
      let flushed :=
        if block.isEmpty then (([] : List Str), ([] : List Nat))
        else format_cmd_lines block key_cap comment_cap tab_width special echoFlag
      let b := handle_boundary tab_width r
      let tail := run_block key_cap comment_cap tab_width special echoFlag rs []
      (flushed.1 ++ b.1 :: tail.1, flushed.2 ++ b.2.toList ++ tail.2)
    else run_block key_cap comment_cap tab_width special echoFlag rs (block ++ [r])

/-- The output lines and the recorded failure line numbers of one
`format_text` run (both align modes; the invalid-mode case yields nothing
and is rejected by `format_text` itself). -/
def format_core (raw_text : Str) (options : FormatOptions) : List Str × List Nat :=
  let lines := pySplitlines raw_text
  let recs := parse_recs options.align_mode options.tab_width 1 lines
  let special := effectiveSpecialKeys options.special_align_keys
  if options.align_mode = "global".data then
    let chunk := recs.filter fun r => r.kind ≠ Kind.boundary
    let fmt := format_cmd_lines chunk options.key_cap options.comment_cap
      options.tab_width special options.echo_align_tables
    let bfails := recs.filterMap fun r =>
      if r.kind = Kind.boundary then (handle_boundary options.tab_width r).2 else none
    (assemble_global options.tab_width recs fmt.1, fmt.2 ++ bfails)
  else if options.align_mode = "block".data then
    run_block options.key_cap options.comment_cap options.tab_width special
      options.echo_align_tables recs []
  else ([], [])

/-- `format_text`: the engine entry point.  The `ValueError` on an
unrecognized align mode is the `.error` case. -/
def format_text (raw_text : Str) (options : FormatOptions) :
    Except Str FormatResult :=
  let newline := if containsCRLF raw_text then "\r\n".data else "\n".data
  let keep_final_newline :=
    endsWithL raw_text "\n".data || endsWithL raw_text "\r\n".data
  if options.align_mode = "global".data || options.align_mode = "block".data then
    let core := format_core raw_text options
    let out_text := joinSep newline core.1 ++
      (if keep_final_newline then newline else [])
    Except.ok { out_text := out_text,
                changed := decide (out_text ≠ raw_text),
                sig_fail_lines := core.2 }
  else Except.error "ALIGN_MODE must be global or block".data

/-- Default options value (`FormatOptions()`). -/
def defaultOptions : FormatOptions := {}

/-- `format_text` result, for concrete evaluation (the error case, never
hit for the valid modes, yields an empty result). -/
def resultOf (raw_text : Str) (options : FormatOptions) : FormatResult :=
  match format_text raw_text options with
  | Except.ok r => r
  | Except.error _ => { out_text := [], changed := false, sig_fail_lines := [] }

/-! ## Signature lemmas: `detab` and `rstrip_ws` never change `sig_no_ws` -/

theorem sig_no_ws_append (s t : Str) :
    sig_no_ws (s ++ t) = sig_no_ws s ++ sig_no_ws t := by
  simp [sig_no_ws]

theorem sig_no_ws_cons_ws {c : Char} (h : isCfgWs c = true) (rest : Str) :
    sig_no_ws (c :: rest) = sig_no_ws rest := by
  simp [sig_no_ws, List.filter_cons, h]

theorem sig_no_ws_cons_nws {c : Char} (h : isCfgWs c = false) (rest : Str) :
    sig_no_ws (c :: rest) = c :: sig_no_ws rest := by
  simp [sig_no_ws, List.filter_cons, h]

theorem sig_no_ws_replicate_space (w : Nat) :
    sig_no_ws (List.replicate w ' ') = [] := by
  simp [sig_no_ws, List.filter_eq_nil_iff]
  intros
  decide

theorem sig_no_ws_detab (s : Str) (w : Nat) :
    sig_no_ws (detab s w) = sig_no_ws s := by
  induction s with
  | nil => rfl
  | cons c rest ih =>
    by_cases hc : c = '\t'
    · subst hc
      rw [detab, if_pos rfl, sig_no_ws_append, sig_no_ws_replicate_space,
        List.nil_append, ih, sig_no_ws_cons_ws (by decide)]
    · rw [detab, if_neg hc]
      by_cases hw : isCfgWs c = true
      · rw [sig_no_ws_cons_ws hw, sig_no_ws_cons_ws hw, ih]
      · rw [sig_no_ws_cons_nws (by simpa using hw),
          sig_no_ws_cons_nws (by simpa using hw), ih]

theorem filter_dropWhile_neg (p : Char → Bool) (l : Str) :
    (l.dropWhile p).filter (fun c => !p c) = l.filter (fun c => !p c) := by
  induction l with
  | nil => rfl
  | cons c rest ih =>
    by_cases hc : p c = true
    · simp [List.dropWhile_cons, hc, List.filter_cons, ih]
    · simp [List.dropWhile_cons, hc, List.filter_cons]

theorem sig_no_ws_rstrip_ws (s : Str) :
    sig_no_ws (rstrip_ws s) = sig_no_ws s := by
  have h := filter_dropWhile_neg isCfgWs s.reverse
  have h2 : sig_no_ws (rstrip_ws s) = (sig_no_ws s.reverse).reverse := by
    simp only [rstrip_ws, sig_no_ws, List.filter_reverse, h]
  simpa [sig_no_ws, List.filter_reverse] using h2

/-- The normalization `rstrip_ws (detab s w)` preserves the whitespace-free
signature of any string. -/
theorem sig_no_ws_normalize (s : Str) (w : Nat) :
    sig_no_ws (rstrip_ws (detab s w)) = sig_no_ws s := by
  rw [sig_no_ws_rstrip_ws, sig_no_ws_detab]

/-! ## `LineOk`: strings free of line-break characters, and closure lemmas -/

/-- A string containing no line-break character (every line produced by
`pySplitlines` is such, and every emitted line stays such). -/
def LineOk (s : Str) : Prop := ∀ c ∈ s, isLineBreak c = false

theorem LineOk.mono {s t : Str} (ht : LineOk t) (h : ∀ c ∈ s, c ∈ t) :
    LineOk s := fun c hc => ht c (h c hc)

theorem lineOk_nil : LineOk [] := fun c hc => absurd hc (List.not_mem_nil c)

theorem lineOk_append {s t : Str} (hs : LineOk s) (ht : LineOk t) :
    LineOk (s ++ t) := by
  intro c hc
  rcases List.mem_append.mp hc with h | h
  · exact hs c h
  · exact ht c h

theorem lineOk_cons {c : Char} {s : Str} (hc : isLineBreak c = false)
    (hs : LineOk s) : LineOk (c :: s) := by
  intro d hd
  rcases List.mem_cons.mp hd with h | h
  · exact h ▸ hc
  · exact hs d h

theorem lineOk_replicate_space (n : Nat) : LineOk (List.replicate n ' ') := by
  intro c hc
  rw [List.eq_of_mem_replicate hc]
  decide

theorem lineOk_detab {s : Str} (w : Nat) (hs : LineOk s) :
    LineOk (detab s w) := by
  induction s with
  | nil => exact lineOk_nil
  | cons c rest ih =>
    have hc := hs c (List.mem_cons_self c rest)
    have hrest : LineOk rest := fun d hd => hs d (List.mem_cons_of_mem c hd)
    by_cases h : c = '\t'
    · subst h
      simpa [detab] using lineOk_append (lineOk_replicate_space w) (ih hrest)
    · simpa [detab, h] using lineOk_cons hc (ih hrest)

theorem lineOk_reverse {s : Str} (hs : LineOk s) : LineOk s.reverse := by
  intro c hc
  exact hs c (List.mem_reverse.mp hc)

theorem lineOk_dropWhile {p : Char → Bool} {s : Str} (hs : LineOk s) :
    LineOk (s.dropWhile p) :=
  hs.mono fun _ hc => (List.dropWhile_sublist p).subset hc

theorem lineOk_takeWhile {p : Char → Bool} {s : Str} (hs : LineOk s) :
    LineOk (s.takeWhile p) :=
  hs.mono fun _ hc => (List.takeWhile_sublist p).subset hc

theorem lineOk_rstrip_ws {s : Str} (hs : LineOk s) : LineOk (rstrip_ws s) :=
  lineOk_reverse (lineOk_dropWhile (lineOk_reverse hs))

theorem lineOk_pyLstrip {s : Str} (hs : LineOk s) : LineOk (pyLstrip s) :=
  lineOk_dropWhile hs

theorem lineOk_pyRstrip {s : Str} (hs : LineOk s) : LineOk (pyRstrip s) :=
  lineOk_reverse (lineOk_dropWhile (lineOk_reverse hs))

theorem lineOk_pyStrip {s : Str} (hs : LineOk s) : LineOk (pyStrip s) :=
  lineOk_pyRstrip (lineOk_pyLstrip hs)

theorem lineOk_stripPipes {s : Str} (hs : LineOk s) : LineOk (stripPipes s) :=
  lineOk_reverse (lineOk_dropWhile (lineOk_reverse (lineOk_dropWhile hs)))

theorem lineOk_take {s : Str} (n : Nat) (hs : LineOk s) : LineOk (s.take n) :=
  hs.mono fun _ hc => List.take_subset n s hc

theorem lineOk_drop {s : Str} (n : Nat) (hs : LineOk s) : LineOk (s.drop n) :=
  hs.mono fun _ hc => List.drop_subset n s hc

theorem mem_splitOnPipe {s : Str} :
    ∀ {f : Str}, f ∈ splitOnPipe s → ∀ {c : Char}, c ∈ f → c ∈ s := by
  induction s with
  | nil =>
    intro f hf c hc
    simp only [splitOnPipe, List.mem_singleton] at hf
    subst hf
    exact absurd hc (List.not_mem_nil c)
  | cons x rest ih =>
    intro f hf c hc
    simp only [splitOnPipe] at hf
    by_cases hx : x = '|'
    · simp only [hx, eq_self_iff_true, if_true, List.mem_cons] at hf
      rcases hf with rfl | hf
      · exact absurd hc (List.not_mem_nil c)
      · exact List.mem_cons_of_mem _ (ih hf hc)
    · simp only [if_neg hx] at hf
      obtain ⟨r, hr⟩ : ∃ r, splitOnPipe rest = r := ⟨_, rfl⟩
      rw [hr] at hf
      cases r with
      | nil =>
        simp only [List.mem_singleton] at hf
        subst hf
        rcases List.mem_cons.mp hc with h | h
        · exact h ▸ List.mem_cons_self x rest
        · exact absurd h (List.not_mem_nil c)
      | cons y ys =>
        rcases List.mem_cons.mp hf with rfl | h
        · rcases List.mem_cons.mp hc with h | h
          · exact h ▸ List.mem_cons_self x rest
          · exact List.mem_cons_of_mem _ (ih (hr ▸ List.mem_cons_self y ys) h)
        · exact List.mem_cons_of_mem _ (ih (hr ▸ List.mem_cons_of_mem y h) hc)

theorem mem_joinSep {sep : Str} {ls : List Str} {c : Char}
    (hc : c ∈ joinSep sep ls) : c ∈ sep ∨ ∃ l ∈ ls, c ∈ l := by
  induction ls with
  | nil => exact absurd hc (List.not_mem_nil c)
  | cons x xs ih =>
    cases xs with
    | nil =>
      right
      exact ⟨x, List.mem_cons_self x [], by simpa [joinSep] using hc⟩
    | cons y ys =>
      simp only [joinSep, List.append_assoc, List.mem_append] at hc
      rcases hc with h | h | h
      · exact Or.inr ⟨x, List.mem_cons_self x _, h⟩
      · exact Or.inl h
      · rcases ih h with h2 | ⟨l, hl, hcl⟩
        · exact Or.inl h2
        · exact Or.inr ⟨l, List.mem_cons_of_mem x hl, hcl⟩

theorem lineOk_joinSep {sep : Str} {ls : List Str} (hsep : LineOk sep)
    (hls : ∀ l ∈ ls, LineOk l) : LineOk (joinSep sep ls) := by
  intro c hc
  rcases mem_joinSep hc with h | ⟨l, hl, hcl⟩
  · exact hsep c h
  · exact hls l hl c hcl

/-! ## `pySplitlines`: its lines are break-free, and it inverts joining -/

theorem splitlinesGo_cons_nonbreak {c : Char} (h : isLineBreak c = false)
    (acc rest : Str) :
    splitlinesGo acc (c :: rest) = splitlinesGo (c :: acc) rest := by
  have hr : ¬c = '\r' := by
    intro e
    subst e
    simp [isLineBreak] at h
  cases rest with
  | nil => simp [splitlinesGo, h]
  | cons r1 rs =>
    by_cases h1 : r1 = '\n'
    · subst h1
      simp [splitlinesGo, h, hr]
    · simp [splitlinesGo, h, hr, h1]

theorem splitlinesGo_lf (acc rest : Str) :
    splitlinesGo acc ('\n' :: rest) = acc.reverse :: splitlinesGo [] rest := by
  cases rest with
  | nil => simp [splitlinesGo, isLineBreak]
  | cons r1 rs =>
    by_cases h1 : r1 = '\n'
    · subst h1
      simp [splitlinesGo, isLineBreak]
    · simp [splitlinesGo, isLineBreak, h1]

theorem splitlinesGo_crlf (acc rest : Str) :
    splitlinesGo acc ('\r' :: '\n' :: rest) = acc.reverse :: splitlinesGo [] rest := by
  simp [splitlinesGo]

theorem splitlinesGo_append_of_lineOk {l : Str} (hl : LineOk l) :
    ∀ acc rest, splitlinesGo acc (l ++ rest) = splitlinesGo (l.reverse ++ acc) rest := by
  induction l with
  | nil => intro acc rest; simp
  | cons c t ih =>
    intro acc rest
    have hc := hl c (List.mem_cons_self c t)
    have ht : LineOk t := fun d hd => hl d (List.mem_cons_of_mem c hd)
    rw [List.cons_append, splitlinesGo_cons_nonbreak hc, ih ht]
    simp

theorem splitlines_join_newline {nl : Str}
    (hnl : nl = ['\n'] ∨ nl = ['\r', '\n']) :
    ∀ ls : List Str, ls ≠ [] → (∀ l ∈ ls, LineOk l) →
      pySplitlines (joinSep nl ls ++ nl) = ls := by
  intro ls
  induction ls with
  | nil => intro h; exact absurd rfl h
  | cons x xs ih =>
    intro _ hOk
    have hx : LineOk x := hOk x (List.mem_cons_self x xs)
    cases xs with
    | nil =>
      show splitlinesGo [] (x ++ nl) = [x]
      rw [splitlinesGo_append_of_lineOk hx, List.append_nil]
      rcases hnl with h | h <;> subst h
      · rw [splitlinesGo_lf]
        simp [splitlinesGo]
      · rw [splitlinesGo_crlf]
        simp [splitlinesGo]
    | cons y ys =>
      have hrest : pySplitlines (joinSep nl (y :: ys) ++ nl) = y :: ys :=
        ih (by simp) fun l hl => hOk l (List.mem_cons_of_mem x hl)
      show splitlinesGo [] (joinSep nl (x :: y :: ys) ++ nl) = x :: y :: ys
      have hshape : joinSep nl (x :: y :: ys) ++ nl =
          x ++ (nl ++ (joinSep nl (y :: ys) ++ nl)) := by
        simp [joinSep]
      rw [hshape, splitlinesGo_append_of_lineOk hx, List.append_nil]
      rcases hnl with h | h <;> subst h
      · rw [List.singleton_append, splitlinesGo_lf]
        simpa using hrest
      · rw [List.cons_append, List.singleton_append, splitlinesGo_crlf]
        simpa using hrest

theorem splitlinesGo_lines_lineOk :
    ∀ (n : Nat) (s acc : Str), s.length ≤ n → LineOk acc →
      ∀ l ∈ splitlinesGo acc s, LineOk l := by
  intro n
  induction n with
  | zero =>
    intro s acc hlen hacc l hl
    have hs : s = [] := List.eq_nil_of_length_eq_zero (Nat.le_zero.mp hlen)
    subst hs
    by_cases h : acc.isEmpty
    · simp [splitlinesGo, h] at hl
    · simp [splitlinesGo, h] at hl
      subst hl
      exact lineOk_reverse hacc
  | succ n ihn =>
    intro s acc hlen hacc l hl
    cases s with
    | nil =>
      by_cases h : acc.isEmpty
      · simp [splitlinesGo, h] at hl
      · simp [splitlinesGo, h] at hl
        subst hl
        exact lineOk_reverse hacc
    | cons c rest =>
      have hrest_len : rest.length ≤ n := by
        simp at hlen
        omega
      by_cases hc : isLineBreak c = true
      · by_cases hcr : c = '\r'
        · subst hcr
          cases rest with
          | nil =>
            simp [splitlinesGo, isLineBreak] at hl
            subst hl
            exact lineOk_reverse hacc
          | cons r1 rs =>
            have hrs_len : rs.length ≤ n := by
              simp at hrest_len
              omega
            by_cases h1 : r1 = '\n'
            · subst h1
              rw [splitlinesGo_crlf] at hl
              rcases List.mem_cons.mp hl with rfl | hl2
              · exact lineOk_reverse hacc
              · exact ihn rs [] hrs_len lineOk_nil l hl2
            · have heq : splitlinesGo acc ('\r' :: r1 :: rs) =
                  acc.reverse :: splitlinesGo [] (r1 :: rs) := by
                simp [splitlinesGo, h1, isLineBreak]
              rw [heq] at hl
              rcases List.mem_cons.mp hl with rfl | hl2
              · exact lineOk_reverse hacc
              · exact ihn (r1 :: rs) [] hrest_len lineOk_nil l hl2
        · have heq : splitlinesGo acc (c :: rest) =
              acc.reverse :: splitlinesGo [] rest := by
            cases rest with
            | nil => simp [splitlinesGo, hc, hcr]
            | cons r1 rs =>
              by_cases h1 : r1 = '\n'
              · subst h1; simp [splitlinesGo, hc, hcr]
              · simp [splitlinesGo, hc, hcr, h1]
          rw [heq] at hl
          rcases List.mem_cons.mp hl with rfl | hl2
          · exact lineOk_reverse hacc
          · exact ihn rest [] hrest_len lineOk_nil l hl2
      · rw [splitlinesGo_cons_nonbreak (by simpa using hc)] at hl
        exact ihn rest (c :: acc) hrest_len
          (lineOk_cons (by simpa using hc) hacc) l hl

/-- Every line produced by `pySplitlines` is free of line-break characters. -/
theorem pySplitlines_lineOk (s : Str) : ∀ l ∈ pySplitlines s, LineOk l :=
  splitlinesGo_lines_lineOk s.length s [] (Nat.le_refl _) lineOk_nil

/-! ## Membership lemmas for the tokenizer pieces -/

theorem mem_pyLstrip {s : Str} {c : Char} (h : c ∈ pyLstrip s) : c ∈ s :=
  (List.dropWhile_sublist _).subset h

theorem mem_pyRstrip {s : Str} {c : Char} (h : c ∈ pyRstrip s) : c ∈ s := by
  unfold pyRstrip at h
  exact List.mem_reverse.mp ((List.dropWhile_sublist _).subset (List.mem_reverse.mp h))

theorem mem_pyStrip {s : Str} {c : Char} (h : c ∈ pyStrip s) : c ∈ s :=
  mem_pyLstrip (mem_pyRstrip h)

theorem mem_stripPipes {s : Str} {c : Char} (h : c ∈ stripPipes s) : c ∈ s := by
  unfold stripPipes at h
  have h2 := (List.dropWhile_sublist _).subset (List.mem_reverse.mp h)
  exact (List.dropWhile_sublist _).subset (List.mem_reverse.mp h2)

theorem mem_rstrip_ws {s : Str} {c : Char} (h : c ∈ rstrip_ws s) : c ∈ s := by
  unfold rstrip_ws at h
  exact List.mem_reverse.mp ((List.dropWhile_sublist _).subset (List.mem_reverse.mp h))

theorem parseQuoted_mem {s q r : Str} (h : parseQuoted s = some (q, r)) :
    (∀ c ∈ q, c = '"' ∨ c ∈ s) ∧ (∀ c ∈ r, c ∈ s) := by
  unfold parseQuoted at h
  cases s with
  | nil => exact absurd h (by simp)
  | cons c0 t =>
    by_cases hc0 : c0 = '"'
    · subst hc0
      simp only at h
      obtain ⟨d, hd⟩ : ∃ d, t.dropWhile (fun c => c ≠ '"') = d := ⟨_, rfl⟩
      rw [hd] at h
      have hdsub : ∀ c ∈ d, c ∈ t := by
        intro c hc
        exact (List.dropWhile_sublist _).subset (hd ▸ hc)
      cases d with
      | nil => exact absurd h (by simp)
      | cons c1 t2 =>
        by_cases hc1 : c1 = '"'
        · subst hc1
          simp only [Option.some.injEq, Prod.mk.injEq] at h
          obtain ⟨hq, hr⟩ := h
          constructor
          · intro c hc
            rw [← hq] at hc
            rcases List.mem_cons.mp hc with rfl | hc2
            · exact Or.inl rfl
            · rcases List.mem_append.mp hc2 with h3 | h3
              · exact Or.inr (List.mem_cons_of_mem _
                  ((List.takeWhile_sublist _).subset h3))
              · simp only [List.mem_singleton] at h3
                exact Or.inl h3
          · intro c hc
            rw [← hr] at hc
            exact List.mem_cons_of_mem _ (hdsub c (List.mem_cons_of_mem _ hc))
        · exact absurd h (by simp [hc1])
    · exact absurd h (by simp [hc0])

theorem split_two_quoted_mem {rest q1 q2 tail : Str}
    (h : split_two_quoted rest = some (q1, q2, tail)) :
    (∀ c ∈ q1, c = '"' ∨ c ∈ rest) ∧ (∀ c ∈ q2, c = '"' ∨ c ∈ rest) ∧
      (∀ c ∈ tail, c ∈ rest) := by
  unfold split_two_quoted at h
  obtain ⟨o1, ho1⟩ : ∃ o, parseQuoted (rest.dropWhile pyIsSpace) = o := ⟨_, rfl⟩
  rw [ho1] at h
  cases o1 with
  | none => exact absurd h (by simp)
  | some p1 =>
    obtain ⟨q1x, r1⟩ := p1
    simp only at h
    obtain ⟨o2, ho2⟩ : ∃ o, parseQuoted (r1.dropWhile pyIsSpace) = o := ⟨_, rfl⟩
    rw [ho2] at h
    cases o2 with
    | none => exact absurd h (by simp)
    | some p2 =>
      obtain ⟨q2x, tailx⟩ := p2
      simp only [Option.some.injEq, Prod.mk.injEq] at h
      obtain ⟨rfl, rfl, rfl⟩ := h
      obtain ⟨hq1, hr1⟩ := parseQuoted_mem ho1
      obtain ⟨hq2, htail⟩ := parseQuoted_mem ho2
      have hr1rest : ∀ c ∈ r1, c ∈ rest := fun c hc =>
        (List.dropWhile_sublist _).subset (hr1 c hc)
      have hdw : ∀ c ∈ r1.dropWhile pyIsSpace, c ∈ rest := fun c hc =>
        hr1rest c ((List.dropWhile_sublist _).subset hc)
      refine ⟨fun c hc => ?_, fun c hc => ?_, fun c hc => hdw c (htail c hc)⟩
      · rcases hq1 c hc with h3 | h3
        · exact Or.inl h3
        · exact Or.inr ((List.dropWhile_sublist _).subset h3)
      · rcases hq2 c hc with h3 | h3
        · exact Or.inl h3
        · exact Or.inr (hdw c h3)

theorem split_indent_key_rest_lineOk {cp i k rst : Str}
    (h : split_indent_key_rest cp = some (i, k, rst)) (hcp : LineOk cp) :
    LineOk i ∧ LineOk k ∧ LineOk rst := by
  unfold split_indent_key_rest at h
  obtain ⟨d, hd⟩ : ∃ d, cp.dropWhile pyIsSpace = d := ⟨_, rfl⟩
  rw [hd] at h
  have hdok : LineOk d := hd ▸ lineOk_dropWhile hcp
  cases d with
  | nil => exact absurd h (by simp)
  | cons c0 t =>
    simp only [Option.some.injEq, Prod.mk.injEq] at h
    obtain ⟨rfl, rfl, rfl⟩ := h
    refine ⟨lineOk_takeWhile hcp, lineOk_takeWhile hdok, ?_⟩
    by_cases he : pyLower ((c0 :: t).takeWhile fun c => !pyIsSpace c) = "echo".data
    · simpa [he] using lineOk_dropWhile hdok
    · simpa [he] using lineOk_dropWhile (lineOk_dropWhile hdok)

/-! ## Invariants of the parsed records -/

theorem parse_line_orig (m : Str) (tw n : Nat) (o : Str) :
    (parse_line m tw n o).orig = o := by
  unfold parse_line
  dsimp only
  repeat' split
  all_goals rfl

theorem parse_line_lineno (m : Str) (tw n : Nat) (o : Str) :
    (parse_line m tw n o).lineno = n := by
  unfold parse_line
  dsimp only
  repeat' split
  all_goals rfl

theorem parse_line_line (m : Str) (tw n : Nat) (o : Str) :
    (parse_line m tw n o).line = rstrip_ws (detab o tw) := by
  unfold parse_line
  dsimp only
  repeat' split
  all_goals rfl

/-- All per-record strings are free of line-break characters. -/
def RecLineOk (r : Rec) : Prop :=
  LineOk r.orig ∧ LineOk r.line ∧ LineOk r.indent ∧ LineOk r.key ∧
    LineOk r.rest ∧ LineOk r.comment

theorem parse_line_recLineOk (m : Str) (tw n : Nat) {o : Str} (ho : LineOk o) :
    RecLineOk (parse_line m tw n o) := by
  have hline : LineOk (rstrip_ws (detab o tw)) :=
    lineOk_rstrip_ws (lineOk_detab tw ho)
  unfold parse_line RecLineOk
  dsimp only
  split
  · exact ⟨ho, hline, lineOk_nil, lineOk_nil, lineOk_nil, lineOk_nil⟩
  · split
    · exact ⟨ho, hline, lineOk_nil, lineOk_nil, lineOk_nil, lineOk_nil⟩
    · split
      · exact ⟨ho, hline, lineOk_nil, lineOk_nil, lineOk_nil, lineOk_nil⟩
      · split
        · exact ⟨ho, hline, lineOk_nil, lineOk_nil, lineOk_nil, lineOk_nil⟩
        · rename_i x indent key rest hikr
          rcases hfc : find_comment_pos_outside_quotes (rstrip_ws (detab o tw)) with
            _ | cpos
          · simp only [hfc] at hikr ⊢
            obtain ⟨h1, h2, h3⟩ := split_indent_key_rest_lineOk hikr hline
            exact ⟨ho, hline, h1, h2, h3, lineOk_nil⟩
          · simp only [hfc] at hikr ⊢
            obtain ⟨h1, h2, h3⟩ := split_indent_key_rest_lineOk hikr
              (lineOk_rstrip_ws (lineOk_take cpos hline))
            exact ⟨ho, hline, h1, h2, h3, lineOk_drop cpos hline⟩

theorem parse_recs_length (m : Str) (tw : Nat) :
    ∀ (n : Nat) (ls : List Str), (parse_recs m tw n ls).length = ls.length := by
  intro n ls
  induction ls generalizing n with
  | nil => rfl
  | cons l rest ih => simp [parse_recs, ih]

theorem parse_recs_getElem (m : Str) (tw : Nat) :
    ∀ (n : Nat) (ls : List Str) (i : Nat) (h : i < (parse_recs m tw n ls).length)
      (h2 : i < ls.length),
      (parse_recs m tw n ls)[i] = parse_line m tw (n + i) ls[i] := by
  intro n ls
  induction ls generalizing n with
  | nil =>
    intro i h h2
    exact absurd h2 (by simp)
  | cons l rest ih =>
    intro i h h2
    cases i with
    | zero => simp [parse_recs]
    | succ j =>
      have hj : j < (parse_recs m tw (n + 1) rest).length := by
        simpa [parse_recs, parse_recs_length] using h
      have hj2 : j < rest.length := by simpa using h2
      show (parse_recs m tw (n + 1) rest)[j] = _
      rw [ih (n + 1) j hj hj2]
      congr 1
      omega

theorem parse_recs_mem {m : Str} {tw : Nat} :
    ∀ {n : Nat} {ls : List Str} {r : Rec}, r ∈ parse_recs m tw n ls →
      ∃ k o, o ∈ ls ∧ r = parse_line m tw k o := by
  intro n ls
  induction ls generalizing n with
  | nil => intro r hr; exact absurd hr (List.not_mem_nil r)
  | cons l rest ih =>
    intro r hr
    rcases List.mem_cons.mp hr with rfl | hr2
    · exact ⟨n, l, List.mem_cons_self l rest, rfl⟩
    · obtain ⟨k, o, ho, hro⟩ := ih hr2
      exact ⟨k, o, List.mem_cons_of_mem l ho, hro⟩

/-! ## The signature guard, pointwise -/

/-- The pointwise contract of an emitted `(line, recorded-failure)` pair
for a record `r`:
  - the guard fired (`some lineno` recorded, minimally normalized original
    emitted) or it did not (emitted line signature-equal to the original);
  - a non-command record whose `line` is the normalized original is always
    emitted unchanged with no failure;
  - break-free inputs yield break-free output. -/
def PtProp (tw : Nat) (r : Rec) (p : Str × Option Nat) : Prop :=
  ((p.2 = none ∧ sig_no_ws p.1 = sig_no_ws r.orig) ∨
    (p.2 = some r.lineno ∧ p.1 = rstrip_ws (detab r.orig tw))) ∧
  (r.line = rstrip_ws (detab r.orig tw) → r.kind ≠ Kind.cmd → p = (r.line, none)) ∧
  (RecLineOk r → LineOk p.1)

theorem handle_boundary_norm {tw : Nat} {r : Rec}
    (h : r.line = rstrip_ws (detab r.orig tw)) :
    handle_boundary tw r = (r.line, none) := by
  unfold handle_boundary
  rw [if_pos]
  rw [h, sig_no_ws_normalize]

theorem snd_mem_of_mem_enumFrom {α : Type} :
    ∀ {n : Nat} {l : List α} {p : Nat × α}, p ∈ l.enumFrom n → p.2 ∈ l := by
  intro n l
  induction l generalizing n with
  | nil => intro p hp; exact absurd hp (List.not_mem_nil p)
  | cons x xs ih =>
    intro p hp
    rcases List.mem_cons.mp hp with rfl | hp2
    · exact List.mem_cons_self x xs
    · exact List.mem_cons_of_mem x (ih hp2)

theorem snd_mem_of_mem_enum {α : Type} {l : List α} {p : Nat × α}
    (hp : p ∈ l.enum) : p.2 ∈ l :=
  snd_mem_of_mem_enumFrom hp

theorem lineOk_echoFields {r : Rec} (h : LineOk r.rest) :
    ∀ f ∈ (echoFields r).1, LineOk f := by
  intro f hf
  unfold echoFields at hf
  dsimp only at hf
  obtain ⟨g, hg, rfl⟩ := List.mem_map.mp hf
  intro c hc
  have hcg : c ∈ g := mem_pyStrip hc
  have hcore := mem_splitOnPipe hg hcg
  have hbody : c ∈ pyStrip r.rest := by
    split at hcore
    · exact mem_stripPipes hcore
    · exact hcore
  exact h c (mem_pyStrip hbody)

theorem code_fmt_cmd_lineOk (ctx : ChunkCtx) {r : Rec} (hInd : LineOk r.indent)
    (hKey : LineOk r.key) (hRest : LineOk r.rest) :
    LineOk (code_fmt_cmd ctx r) := by
  have hIK : LineOk (r.indent ++ r.key) := lineOk_append hInd hKey
  have hsep : LineOk " | ".data := by unfold LineOk; decide
  have hfields := lineOk_echoFields hRest
  unfold code_fmt_cmd
  split
  · split
    · dsimp only
      refine lineOk_append hIK (lineOk_cons (by decide) ?_)
      split
      · refine lineOk_append
          (lineOk_append ?_ (lineOk_pyStrip (lineOk_joinSep hsep hfields))) ?_
        · split
          · unfold LineOk; decide
          · exact lineOk_nil
        · split
          · unfold LineOk; decide
          · exact lineOk_nil
      · refine lineOk_pyRstrip (lineOk_joinSep hsep ?_)
        intro l hl
        obtain ⟨p, hp, rfl⟩ := List.mem_map.mp hl
        exact lineOk_append (hfields p.2 (snd_mem_of_mem_enum hp))
          (lineOk_replicate_space _)
    · split
      · exact hIK
      · exact lineOk_append hIK hRest
  · split
    · exact hIK
    · dsimp only
      split
      · rename_i twoq q1 q2 tail heq
        have h2q : split_two_quoted r.rest = some (q1, q2, tail) := by
          by_cases hsp : ctx.special.contains r.keyLower = true
          · rwa [if_pos hsp] at heq
          · rw [if_neg hsp] at heq
            exact absurd heq (by simp)
        obtain ⟨hq1, hq2, htail⟩ := split_two_quoted_mem h2q
        have hq1ok : LineOk q1 := by
          intro c hc
          rcases hq1 c hc with rfl | h3
          · decide
          · exact hRest c h3
        have hq2ok : LineOk q2 := by
          intro c hc
          rcases hq2 c hc with rfl | h3
          · decide
          · exact hRest c h3
        have htailok : LineOk tail := fun c hc => hRest c (htail c hc)
        exact lineOk_append (lineOk_append (lineOk_append (lineOk_append
          (lineOk_append hIK (lineOk_replicate_space _)) hq1ok)
          (lineOk_replicate_space _)) hq2ok) htailok
      · exact lineOk_append (lineOk_append hIK (lineOk_replicate_space _)) hRest

theorem sig_guard_fst_snd (orig new2 norm : Str) (lineno : Nat) :
    (((if sig_no_ws orig = sig_no_ws new2 then (new2, none)
       else (norm, some lineno)) : Str × Option Nat).2 = none ∧
      sig_no_ws ((if sig_no_ws orig = sig_no_ws new2 then (new2, none)
        else (norm, some lineno)) : Str × Option Nat).1 = sig_no_ws orig) ∨
    (((if sig_no_ws orig = sig_no_ws new2 then (new2, none)
       else (norm, some lineno)) : Str × Option Nat).2 = some lineno ∧
      ((if sig_no_ws orig = sig_no_ws new2 then (new2, none)
        else (norm, some lineno)) : Str × Option Nat).1 = norm) := by
  split
  · rename_i h
    exact Or.inl ⟨rfl, h.symm⟩
  · exact Or.inr ⟨rfl, rfl⟩

theorem sig_guard_lineOk {new2 norm : Str} (orig : Str) (lineno : Nat)
    (h1 : LineOk new2) (h2 : LineOk norm) :
    LineOk ((if sig_no_ws orig = sig_no_ws new2 then (new2, none)
      else (norm, some lineno)) : Str × Option Nat).1 := by
  split
  · exact h1
  · exact h2

theorem handle_boundary_pt (tw : Nat) (r : Rec) :
    PtProp tw r (handle_boundary tw r) := by
  refine ⟨?_, fun hnorm _ => handle_boundary_norm hnorm, ?_⟩
  · unfold handle_boundary
    dsimp only
    exact sig_guard_fst_snd r.orig r.line _ r.lineno
  · intro hok
    unfold handle_boundary
    dsimp only
    exact sig_guard_lineOk r.orig r.lineno hok.2.1
      (lineOk_rstrip_ws (lineOk_detab tw hok.1))

theorem render_rec_pt (tw : Nat) (ctx : ChunkCtx) (target : Option Nat) (r : Rec) :
    PtProp tw r (render_rec tw ctx target r) := by
  by_cases hk : r.kind = Kind.cmd
  · have hknc : ¬r.kind ≠ Kind.cmd := fun h => h hk
    refine ⟨?_, fun _ hne => absurd hk hne, ?_⟩
    · unfold render_rec
      rw [if_neg hknc]
      dsimp only
      exact sig_guard_fst_snd r.orig _ _ r.lineno
    · intro hok
      obtain ⟨hOrig, _, hInd, hKey, hRest, hCom⟩ := hok
      have hcf := code_fmt_cmd_lineOk ctx hInd hKey hRest
      have hnew : LineOk
          (if !r.comment.isEmpty then
            match target with
            | some t =>
              if (code_fmt_cmd ctx r).length ≤ t then
                code_fmt_cmd ctx r ++
                  List.replicate (max 1 (t + 1 - (code_fmt_cmd ctx r).length)) ' ' ++
                  r.comment
              else code_fmt_cmd ctx r ++ ' ' :: r.comment
            | none => code_fmt_cmd ctx r ++ ' ' :: r.comment
          else code_fmt_cmd ctx r) := by
        split
        · split
          · split
            · exact lineOk_append (lineOk_append hcf (lineOk_replicate_space _)) hCom
            · exact lineOk_append hcf (lineOk_cons (by decide) hCom)
          · exact lineOk_append hcf (lineOk_cons (by decide) hCom)
        · exact hcf
      unfold render_rec
      rw [if_neg hknc]
      dsimp only
      exact sig_guard_lineOk r.orig r.lineno
        (lineOk_rstrip_ws (lineOk_detab tw hnew))
        (lineOk_rstrip_ws (lineOk_detab tw hOrig))
  · have hkn : r.kind ≠ Kind.cmd := hk
    have hshape : render_rec tw ctx target r =
        (if sig_no_ws r.orig = sig_no_ws r.line then (r.line, none)
         else (rstrip_ws (detab r.orig tw), some r.lineno)) := by
      unfold render_rec
      rw [if_pos hkn]
    refine ⟨?_, ?_, ?_⟩
    · rw [hshape]
      exact sig_guard_fst_snd r.orig r.line _ r.lineno
    · intro hnorm _
      rw [hshape, if_pos]
      rw [hnorm, sig_no_ws_normalize]
    · intro hok
      rw [hshape]
      exact sig_guard_lineOk r.orig r.lineno hok.2.1
        (lineOk_rstrip_ws (lineOk_detab tw hok.1))

/-! ## Emitted lines: the per-record contract, threaded through both modes -/

/-- `out`/`fails` arise from a per-record list of `(line, failure)` pairs
each satisfying the pointwise guard contract. -/
def Emitted (tw : Nat) (recs : List Rec) (out : List Str) (fails : List Nat) : Prop :=
  ∃ ps : List (Str × Option Nat), out = ps.map Prod.fst ∧
    fails = ps.filterMap Prod.snd ∧ List.Forall₂ (PtProp tw) recs ps

theorem emitted_nil {tw : Nat} : Emitted tw [] [] [] :=
  ⟨[], rfl, rfl, List.Forall₂.nil⟩

theorem emitted_append {tw : Nat} {r1 r2 : List Rec} {o1 o2 : List Str}
    {f1 f2 : List Nat} (h1 : Emitted tw r1 o1 f1) (h2 : Emitted tw r2 o2 f2) :
    Emitted tw (r1 ++ r2) (o1 ++ o2) (f1 ++ f2) := by
  obtain ⟨ps1, ho1, hf1, hp1⟩ := h1
  obtain ⟨ps2, ho2, hf2, hp2⟩ := h2
  exact ⟨ps1 ++ ps2, by simp [ho1, ho2], by simp [hf1, hf2],
    List.rel_append hp1 hp2⟩

theorem emitted_single {tw : Nat} {r : Rec} {p : Str × Option Nat}
    (h : PtProp tw r p) : Emitted tw [r] [p.1] p.2.toList := by
  refine ⟨[p], rfl, ?_, List.Forall₂.cons h List.Forall₂.nil⟩
  cases hp : p.2 <;> simp [List.filterMap, hp]

theorem format_cmd_lines_emitted (cmd_recs : List Rec)
    (key_cap comment_cap tab_width : Nat) (special : List Str) (echoFlag : Bool) :
    Emitted tab_width cmd_recs
      (format_cmd_lines cmd_recs key_cap comment_cap tab_width special echoFlag).1
      (format_cmd_lines cmd_recs key_cap comment_cap tab_width special echoFlag).2 := by
  refine ⟨cmd_recs.map (render_rec tab_width
      (chunk_ctx cmd_recs key_cap special echoFlag)
      (comment_target_of (chunk_ctx cmd_recs key_cap special echoFlag) cmd_recs
        comment_cap)), by simp [format_cmd_lines], by simp [format_cmd_lines], ?_⟩
  rw [List.forall₂_map_right_iff]
  exact List.forall₂_same.mpr fun r _ => render_rec_pt _ _ _ r

theorem run_block_emitted (key_cap comment_cap tab_width : Nat)
    (special : List Str) (echoFlag : Bool) :
    ∀ (rs block : List Rec),
      Emitted tab_width (block ++ rs)
        (run_block key_cap comment_cap tab_width special echoFlag rs block).1
        (run_block key_cap comment_cap tab_width special echoFlag rs block).2 := by
  intro rs
  induction rs with
  | nil =>
    intro block
    unfold run_block
    by_cases hb : block.isEmpty
    · have : block = [] := by simpa [List.isEmpty_iff] using hb
      subst this
      simpa [hb] using emitted_nil
    · simpa [hb] using
        format_cmd_lines_emitted block key_cap comment_cap tab_width special echoFlag
  | cons r rs ih =>
    intro block
    by_cases hk : r.kind = Kind.boundary
    · have hflush : Emitted tab_width block
          (if block.isEmpty then (([] : List Str), ([] : List Nat))
           else format_cmd_lines block key_cap comment_cap tab_width special echoFlag).1
          (if block.isEmpty then (([] : List Str), ([] : List Nat))
           else format_cmd_lines block key_cap comment_cap tab_width special echoFlag).2 := by
        by_cases hb : block.isEmpty
        · have : block = [] := by simpa [List.isEmpty_iff] using hb
          subst this
          simpa [hb] using emitted_nil
        · simpa [hb] using
            format_cmd_lines_emitted block key_cap comment_cap tab_width special echoFlag
      have hbd : Emitted tab_width [r] [(handle_boundary tab_width r).1]
          (handle_boundary tab_width r).2.toList :=
        emitted_single (handle_boundary_pt tab_width r)
      have htail := ih []
      rw [List.nil_append] at htail
      have hall := emitted_append hflush (emitted_append hbd htail)
      have hshape : run_block key_cap comment_cap tab_width special echoFlag
          (r :: rs) block =
          (let flushed :=
            if block.isEmpty then (([] : List Str), ([] : List Nat))
            else format_cmd_lines block key_cap comment_cap tab_width special echoFlag
          let b := handle_boundary tab_width r
          let tail := run_block key_cap comment_cap tab_width special echoFlag rs []
          (flushed.1 ++ b.1 :: tail.1, flushed.2 ++ b.2.toList ++ tail.2)) := by
        conv_lhs => rw [run_block]
        rw [if_pos hk]
      rw [hshape]
      dsimp only
      have heq1 : (if block.isEmpty then (([] : List Str), ([] : List Nat))
          else format_cmd_lines block key_cap comment_cap tab_width special
            echoFlag).1 ++ (handle_boundary tab_width r).1 ::
            (run_block key_cap comment_cap tab_width special echoFlag rs []).1 =
          ((if block.isEmpty then (([] : List Str), ([] : List Nat))
          else format_cmd_lines block key_cap comment_cap tab_width special
            echoFlag).1 ++ ([(handle_boundary tab_width r).1] ++
            (run_block key_cap comment_cap tab_width special echoFlag rs []).1)) := by
        simp
      have heq2 : block ++ r :: rs = block ++ ([r] ++ rs) := by simp
      rw [heq1, heq2, ← List.append_assoc]
      have := emitted_append hflush (emitted_append hbd htail)
      simpa [List.append_assoc] using this
    · have hshape : run_block key_cap comment_cap tab_width special echoFlag
          (r :: rs) block =
          run_block key_cap comment_cap tab_width special echoFlag rs (block ++ [r]) := by
        conv_lhs => rw [run_block]
        rw [if_neg hk]
      rw [hshape]
      have := ih (block ++ [r])
      simpa [List.append_assoc] using this

theorem assemble_global_map (tw : Nat) (f : Rec → Str) :
    ∀ recs : List Rec,
      assemble_global tw recs
        ((recs.filter fun r => r.kind ≠ Kind.boundary).map f) =
      recs.map fun r =>
        if r.kind = Kind.boundary then (handle_boundary tw r).1 else f r := by
  intro recs
  induction recs with
  | nil => rfl
  | cons r rs ih =>
    by_cases hk : r.kind = Kind.boundary
    · have hfil : (r :: rs).filter (fun r => r.kind ≠ Kind.boundary) =
          rs.filter fun r => r.kind ≠ Kind.boundary := by
        simp [List.filter_cons, hk]
      rw [hfil]
      conv_lhs => rw [assemble_global.eq_def]
      dsimp only
      rw [if_pos hk, List.map_cons, if_pos hk, ih]
    · have hfil : (r :: rs).filter (fun r => r.kind ≠ Kind.boundary) =
          r :: rs.filter fun r => r.kind ≠ Kind.boundary := by
        simp [List.filter_cons, hk]
      rw [hfil, List.map_cons]
      conv_lhs => rw [assemble_global.eq_def]
      dsimp only
      rw [if_neg hk]
      rw [List.map_cons, if_neg hk, ih]

theorem global_fails_eq (tw : Nat) (ctx : ChunkCtx) (target : Option Nat) :
    ∀ recs : List Rec,
      (∀ r ∈ recs, r.line = rstrip_ws (detab r.orig tw)) →
      ((recs.filter fun r => r.kind ≠ Kind.boundary).map
        (render_rec tw ctx target)).filterMap Prod.snd =
      (recs.map fun r =>
        if r.kind = Kind.boundary then handle_boundary tw r
        else render_rec tw ctx target r).filterMap Prod.snd := by
  intro recs
  induction recs with
  | nil => intro _; rfl
  | cons r rs ih =>
    intro hnorm
    have hr := hnorm r (List.mem_cons_self r rs)
    have hrs : ∀ x ∈ rs, x.line = rstrip_ws (detab x.orig tw) := fun x hx =>
      hnorm x (List.mem_cons_of_mem r hx)
    by_cases hk : r.kind = Kind.boundary
    · have hfil : (r :: rs).filter (fun r => r.kind ≠ Kind.boundary) =
          rs.filter fun r => r.kind ≠ Kind.boundary := by
        simp [List.filter_cons, hk]
      rw [hfil, List.map_cons, if_pos hk, handle_boundary_norm hr,
        List.filterMap_cons]
      dsimp only
      exact ih hrs
    · have hfil : (r :: rs).filter (fun r => r.kind ≠ Kind.boundary) =
          r :: rs.filter fun r => r.kind ≠ Kind.boundary := by
        simp [List.filter_cons, hk]
      rw [hfil, List.map_cons, List.map_cons, if_neg hk, List.filterMap_cons,
        List.filterMap_cons]
      cases hsnd : (render_rec tw ctx target r).2 with
      | none =>
        simp only [hsnd]
        exact ih hrs
      | some b =>
        simp only [hsnd]
        rw [ih hrs]

theorem boundary_fails_nil (tw : Nat) :
    ∀ recs : List Rec,
      (∀ r ∈ recs, r.line = rstrip_ws (detab r.orig tw)) →
      (recs.filterMap fun r =>
        if r.kind = Kind.boundary then (handle_boundary tw r).2 else none) = [] := by
  intro recs
  induction recs with
  | nil => intro _; rfl
  | cons r rs ih =>
    intro hnorm
    have hr := hnorm r (List.mem_cons_self r rs)
    have hrs : ∀ x ∈ rs, x.line = rstrip_ws (detab x.orig tw) := fun x hx =>
      hnorm x (List.mem_cons_of_mem r hx)
    rw [List.filterMap_cons]
    by_cases hk : r.kind = Kind.boundary
    · rw [if_pos hk, handle_boundary_norm hr]
      dsimp only
      exact ih hrs
    · rw [if_neg hk]
      exact ih hrs

theorem parse_recs_norm (m : Str) (tw : Nat) (n : Nat) (ls : List Str) :
    ∀ r ∈ parse_recs m tw n ls, r.line = rstrip_ws (detab r.orig tw) := by
  intro r hr
  obtain ⟨k, o, _, rfl⟩ := parse_recs_mem hr
  rw [parse_line_line, parse_line_orig]

theorem format_cmd_lines_fst (recs : List Rec)
    (key_cap comment_cap tab_width : Nat) (special : List Str) (echoFlag : Bool) :
    (format_cmd_lines recs key_cap comment_cap tab_width special echoFlag).1 =
    recs.map fun r => (render_rec tab_width (chunk_ctx recs key_cap special echoFlag)
      (comment_target_of (chunk_ctx recs key_cap special echoFlag) recs comment_cap)
      r).1 := by
  unfold format_cmd_lines
  dsimp only
  rw [List.map_map]
  rfl

theorem format_cmd_lines_snd (recs : List Rec)
    (key_cap comment_cap tab_width : Nat) (special : List Str) (echoFlag : Bool) :
    (format_cmd_lines recs key_cap comment_cap tab_width special echoFlag).2 =
    (recs.map (render_rec tab_width (chunk_ctx recs key_cap special echoFlag)
      (comment_target_of (chunk_ctx recs key_cap special echoFlag) recs
        comment_cap))).filterMap Prod.snd := by
  unfold format_cmd_lines
  dsimp only

theorem format_core_emitted (raw : Str) (opts : FormatOptions)
    (hmode : opts.align_mode = "global".data ∨ opts.align_mode = "block".data) :
    Emitted opts.tab_width
      (parse_recs opts.align_mode opts.tab_width 1 (pySplitlines raw))
      (format_core raw opts).1 (format_core raw opts).2 := by
  rcases hmode with hm | hm
  · have hshape : format_core raw opts =
        (let recs := parse_recs opts.align_mode opts.tab_width 1 (pySplitlines raw)
        let special := effectiveSpecialKeys opts.special_align_keys
        let chunk := recs.filter fun r => r.kind ≠ Kind.boundary
        let fmt := format_cmd_lines chunk opts.key_cap opts.comment_cap
          opts.tab_width special opts.echo_align_tables
        let bfails := recs.filterMap fun r =>
          if r.kind = Kind.boundary then (handle_boundary opts.tab_width r).2
          else none
        (assemble_global opts.tab_width recs fmt.1, fmt.2 ++ bfails)) := by
      unfold format_core
      rw [if_pos hm]
    rw [hshape]
    dsimp only
    generalize hrecs :
      parse_recs opts.align_mode opts.tab_width 1 (pySplitlines raw) = recs
    have hnorm : ∀ r ∈ recs, r.line = rstrip_ws (detab r.orig opts.tab_width) := by
      rw [← hrecs]
      exact parse_recs_norm _ _ _ _
    refine ⟨recs.map fun r =>
      if r.kind = Kind.boundary then handle_boundary opts.tab_width r
      else render_rec opts.tab_width
        (chunk_ctx (recs.filter fun r => r.kind ≠ Kind.boundary) opts.key_cap
          (effectiveSpecialKeys opts.special_align_keys) opts.echo_align_tables)
        (comment_target_of
          (chunk_ctx (recs.filter fun r => r.kind ≠ Kind.boundary) opts.key_cap
            (effectiveSpecialKeys opts.special_align_keys) opts.echo_align_tables)
          (recs.filter fun r => r.kind ≠ Kind.boundary) opts.comment_cap) r,
      ?_, ?_, ?_⟩
    · rw [format_cmd_lines_fst]
      rw [assemble_global_map opts.tab_width _ recs, List.map_map]
      apply List.map_congr_left
      intro r _
      by_cases hk : r.kind = Kind.boundary
      · simp [hk]
      · simp [hk]
    · rw [format_cmd_lines_snd,
        boundary_fails_nil opts.tab_width recs hnorm, List.append_nil]
      exact global_fails_eq opts.tab_width _ _ recs hnorm
    · rw [List.forall₂_map_right_iff]
      refine List.forall₂_same.mpr fun r _ => ?_
      by_cases hk : r.kind = Kind.boundary
      · rw [if_pos hk]
        exact handle_boundary_pt opts.tab_width r
      · rw [if_neg hk]
        exact render_rec_pt opts.tab_width _ _ r
  · have hshape : format_core raw opts =
        run_block opts.key_cap opts.comment_cap opts.tab_width
          (effectiveSpecialKeys opts.special_align_keys) opts.echo_align_tables
          (parse_recs opts.align_mode opts.tab_width 1 (pySplitlines raw)) [] := by
      unfold format_core
      rw [if_neg (by simp [hm]), if_pos hm]
    rw [hshape]
    have := run_block_emitted opts.key_cap opts.comment_cap opts.tab_width
      (effectiveSpecialKeys opts.special_align_keys) opts.echo_align_tables
      (parse_recs opts.align_mode opts.tab_width 1 (pySplitlines raw)) []
    simpa using this

theorem parse_recs_lineno (m : Str) (tw : Nat) (ls : List Str) (i : Nat)
    (hi : i < (parse_recs m tw 1 ls).length) :
    (parse_recs m tw 1 ls)[i].lineno = i + 1 := by
  have h2 : i < ls.length := by
    rw [parse_recs_length] at hi
    exact hi
  rw [parse_recs_getElem m tw 1 ls i hi h2, parse_line_lineno]
  omega

theorem parse_recs_orig (m : Str) (tw : Nat) (ls : List Str) (i : Nat)
    (hi : i < (parse_recs m tw 1 ls).length) (h2 : i < ls.length) :
    (parse_recs m tw 1 ls)[i].orig = ls[i] := by
  rw [parse_recs_getElem m tw 1 ls i hi h2, parse_line_orig]

/-- Index-wise consequences of `Emitted`: line-count preservation and the
per-line signature guarantee, assuming the 1-based line numbers of the
records are their positions. -/
theorem emitted_per_line {tw : Nat} {recs : List Rec} {out : List Str}
    {fails : List Nat} (hE : Emitted tw recs out fails)
    (hlineno : ∀ (i : Nat) (hi : i < recs.length), recs[i].lineno = i + 1) :
    out.length = recs.length ∧
    (∀ (i : Nat) (hi : i < recs.length),
      ((i + 1) ∈ fails → out.getD i [] = rstrip_ws (detab recs[i].orig tw)) ∧
      ((i + 1) ∉ fails → sig_no_ws (out.getD i []) = sig_no_ws recs[i].orig)) ∧
    (∀ (i : Nat) (hi : i < recs.length),
      recs[i].line = rstrip_ws (detab recs[i].orig tw) →
      recs[i].kind ≠ Kind.cmd →
      out.getD i [] = recs[i].line ∧ (i + 1) ∉ fails) := by
  obtain ⟨ps, hout, hfails, hF⟩ := hE
  have hlen2 : recs.length = ps.length := hF.length_eq
  have houtlen : out.length = recs.length := by
    rw [hout, List.length_map, hlen2]
  have hgetout : ∀ (i : Nat) (hi : i < recs.length),
      out.getD i [] = (ps.get ⟨i, hlen2 ▸ hi⟩).1 := by
    intro i hi
    have hio : i < out.length := houtlen ▸ hi
    rw [List.getD_eq_getElem _ _ hio]
    subst hout
    simp
  have hpt : ∀ (i : Nat) (hi : i < recs.length),
      PtProp tw recs[i] (ps.get ⟨i, hlen2 ▸ hi⟩) := by
    intro i hi
    have := hF.get hi (hlen2 ▸ hi)
    simpa using this
  have hmem : ∀ (i : Nat) (hi : i < recs.length),
      (i + 1) ∈ fails ↔ (ps.get ⟨i, hlen2 ▸ hi⟩).2 = some (i + 1) := by
    intro i hi
    constructor
    · intro hin
      rw [hfails] at hin
      obtain ⟨p, hp, hp2⟩ := List.mem_filterMap.mp hin
      obtain ⟨⟨j, hj⟩, hpj⟩ := List.mem_iff_get.mp hp
      have hjr : j < recs.length := hlen2 ▸ hj
      have hptj := hpt j hjr
      have hpj2 : ps.get ⟨j, hj⟩ = p := by
        simpa [List.get_eq_getElem] using hpj
      rcases hptj.1 with ⟨hnone, _⟩ | ⟨hsome, _⟩
      · rw [hpj2, hp2] at hnone
        cases hnone
      · rw [hpj2, hp2] at hsome
        have hji : recs[j].lineno = i + 1 := (Option.some.inj hsome).symm
        rw [hlineno j hjr] at hji
        have : j = i := by omega
        subst this
        rw [hpj2, hp2]
    · intro hsome
      rw [hfails]
      refine List.mem_filterMap.mpr ⟨ps.get ⟨i, hlen2 ▸ hi⟩, ?_, hsome⟩
      exact List.getElem_mem _
  refine ⟨houtlen, fun i hi => ⟨?_, ?_⟩, fun i hi hnorm hkind => ?_⟩
  · intro hin
    have hsome := (hmem i hi).mp hin
    rcases (hpt i hi).1 with ⟨hnone, _⟩ | ⟨_, hfst⟩
    · rw [hsome] at hnone
      cases hnone
    · rw [hgetout i hi, hfst]
  · intro hnotin
    rcases (hpt i hi).1 with ⟨_, hsig⟩ | ⟨hsome, _⟩
    · rw [hgetout i hi]
      exact hsig
    · have hlin := hlineno i hi
      rw [hlin] at hsome
      exact absurd ((hmem i hi).mpr hsome) hnotin
  · have hp := (hpt i hi).2.1 hnorm hkind
    constructor
    · rw [hgetout i hi, hp]
    · intro hin
      have hsome := (hmem i hi).mp hin
      rw [hp] at hsome
      cases hsome

/-- All emitted lines are break-free when all records are. -/
theorem emitted_lineOk {tw : Nat} {recs : List Rec} {out : List Str}
    {fails : List Nat} (hE : Emitted tw recs out fails)
    (hok : ∀ r ∈ recs, RecLineOk r) : ∀ l ∈ out, LineOk l := by
  obtain ⟨ps, hout, _, hF⟩ := hE
  intro l hl
  rw [hout] at hl
  obtain ⟨p, hp, rfl⟩ := List.mem_map.mp hl
  obtain ⟨⟨j, hj⟩, hpj⟩ := List.mem_iff_get.mp hp
  have hjr : j < recs.length := hF.length_eq ▸ hj
  have hpt := hF.get hjr hj
  have hpj2 : ps.get ⟨j, hj⟩ = p := hpj
  rw [← hpj2]
  have hrok : RecLineOk (recs.get ⟨j, hjr⟩) := hok _ (List.get_mem recs j hjr)
  exact hpt.2.2 hrok

/-- Unpacking a successful `format_text` run into its components. -/
theorem format_text_ok_parts {raw : Str} {opts : FormatOptions}
    {res : FormatResult} (h : format_text raw opts = Except.ok res) :
    (opts.align_mode = "global".data ∨ opts.align_mode = "block".data) ∧
    res.out_text =
      joinSep (if containsCRLF raw then "\r\n".data else "\n".data)
        (format_core raw opts).1 ++
      (if endsWithL raw "\n".data || endsWithL raw "\r\n".data
       then (if containsCRLF raw then "\r\n".data else "\n".data) else []) ∧
    res.changed = decide (res.out_text ≠ raw) ∧
    res.sig_fail_lines = (format_core raw opts).2 := by
  unfold format_text at h
  dsimp only at h
  by_cases hmode : opts.align_mode = "global".data ∨ opts.align_mode = "block".data
  · have hcond : (decide (opts.align_mode = "global".data) ||
        decide (opts.align_mode = "block".data)) = true := by
      rcases hmode with h1 | h1 <;> simp [h1]
    rw [if_pos hcond] at h
    have heq := Except.ok.inj h
    refine ⟨hmode, ?_, ?_, ?_⟩ <;> rw [← heq]
  · have hcond : ¬((decide (opts.align_mode = "global".data) ||
        decide (opts.align_mode = "block".data)) = true) := by
      simpa using hmode
    rw [if_neg hcond] at h
    exact (Except.noConfusion h)

/-- All records of a run over the split lines of the input are break-free. -/
theorem parse_recs_recLineOk (m : Str) (tw : Nat) (raw : Str) :
    ∀ r ∈ parse_recs m tw 1 (pySplitlines raw), RecLineOk r := by
  intro r hr
  obtain ⟨k, o, ho, rfl⟩ := parse_recs_mem hr
  exact parse_line_recLineOk m tw k (pySplitlines_lineOk raw o ho)

/-- `format_core` depends on the options only through the listed fields
(with `special_align_keys` entering through `effectiveSpecialKeys`). -/
theorem format_core_congr (raw : Str) (o1 o2 : FormatOptions)
    (h1 : o1.align_mode = o2.align_mode) (h2 : o1.tab_width = o2.tab_width)
    (h3 : o1.key_cap = o2.key_cap) (h4 : o1.comment_cap = o2.comment_cap)
    (h5 : effectiveSpecialKeys o1.special_align_keys =
      effectiveSpecialKeys o2.special_align_keys)
    (h6 : o1.echo_align_tables = o2.echo_align_tables) :
    format_core raw o1 = format_core raw o2 := by
  unfold format_core
  rw [h1, h2, h3, h4, h5, h6]

theorem format_text_congr (raw : Str) (o1 o2 : FormatOptions)
    (h1 : o1.align_mode = o2.align_mode) (h2 : o1.tab_width = o2.tab_width)
    (h3 : o1.key_cap = o2.key_cap) (h4 : o1.comment_cap = o2.comment_cap)
    (h5 : effectiveSpecialKeys o1.special_align_keys =
      effectiveSpecialKeys o2.special_align_keys)
    (h6 : o1.echo_align_tables = o2.echo_align_tables) :
    format_text raw o1 = format_text raw o2 := by
  unfold format_text
  rw [h1, format_core_congr raw o1 o2 h1 h2 h3 h4 h5 h6]

/-! ## The claims -/

/-- C7: `format_text` raises an error if and only if `options.align_mode` is
neither `"global"` nor `"block"`; for those two modes it always returns a
`FormatResult` for every input text, and for any other mode it aborts the
invocation without producing a result. -/
theorem c7_error_handling (raw : Str) (opts : FormatOptions) :
    ((∃ res, format_text raw opts = Except.ok res) ↔
      (opts.align_mode = "global".data ∨ opts.align_mode = "block".data)) ∧
    ((∃ e, format_text raw opts = Except.error e) ↔
      ¬(opts.align_mode = "global".data ∨ opts.align_mode = "block".data)) := by
  by_cases hmode : opts.align_mode = "global".data ∨ opts.align_mode = "block".data
  · have hcond : (decide (opts.align_mode = "global".data) ||
        decide (opts.align_mode = "block".data)) = true := by
      rcases hmode with h1 | h1 <;> simp [h1]
    constructor
    · refine ⟨fun _ => hmode, fun _ => ?_⟩
      unfold format_text
      dsimp only
      rw [if_pos hcond]
      exact ⟨_, rfl⟩
    · constructor
      · rintro ⟨e, he⟩
        unfold format_text at he
        dsimp only at he
        rw [if_pos hcond] at he
        exact (Except.noConfusion he)
      · intro hno
        exact absurd hmode hno
  · have hcond : ¬((decide (opts.align_mode = "global".data) ||
        decide (opts.align_mode = "block".data)) = true) := by
      simpa using hmode
    constructor
    · constructor
      · rintro ⟨res, hres⟩
        unfold format_text at hres
        dsimp only at hres
        rw [if_neg hcond] at hres
        exact (Except.noConfusion hres)
      · intro hm
        exact absurd hm hmode
    · refine ⟨fun _ => hmode, fun _ => ?_⟩
      unfold format_text
      dsimp only
      rw [if_neg hcond]
      exact ⟨_, rfl⟩

/-- C9: a falsy `special_align_keys` (`None` or the empty set) cannot
disable dual-quote alignment: `format_text` behaves exactly as with the
default set `{bind, alias}`. -/
theorem c9_special_keys_default (raw : Str) (opts : FormatOptions) :
    format_text raw { opts with special_align_keys := none } =
      format_text raw
        { opts with special_align_keys := some SPECIAL_ALIGN_KEYS_DEFAULT } ∧
    format_text raw { opts with special_align_keys := some [] } =
      format_text raw
        { opts with special_align_keys := some SPECIAL_ALIGN_KEYS_DEFAULT } := by
  constructor <;>
    exact format_text_congr raw _ _ rfl rfl rfl rfl rfl rfl

/-- C1: per-line signature invariance.  For every successful run and every
input line (1-based number `i+1`): if the line is not recorded in
`sig_fail_lines`, the emitted line has the same whitespace-free signature
as the input line; if it is recorded, the emitted line is exactly the
tab-expanded, trailing-whitespace-stripped copy of the original. -/
theorem c1_signature_invariance (raw : Str) (opts : FormatOptions)
    (res : FormatResult) (h : format_text raw opts = Except.ok res)
    (i : Nat) (hi : i < (pySplitlines raw).length) :
    ((i + 1) ∈ res.sig_fail_lines →
      (format_core raw opts).1.getD i [] =
        rstrip_ws (detab ((pySplitlines raw).getD i []) opts.tab_width)) ∧
    ((i + 1) ∉ res.sig_fail_lines →
      sig_no_ws ((format_core raw opts).1.getD i []) =
        sig_no_ws ((pySplitlines raw).getD i [])) := by
  obtain ⟨hmode, _, _, hsig⟩ := format_text_ok_parts h
  have hE := format_core_emitted raw opts hmode
  obtain ⟨hlen, hper, _⟩ := emitted_per_line hE
    (parse_recs_lineno opts.align_mode opts.tab_width (pySplitlines raw))
  have hir : i < (parse_recs opts.align_mode opts.tab_width 1
      (pySplitlines raw)).length := by
    rw [parse_recs_length]
    exact hi
  have horig : (parse_recs opts.align_mode opts.tab_width 1
      (pySplitlines raw))[i].orig = (pySplitlines raw)[i] :=
    parse_recs_orig opts.align_mode opts.tab_width (pySplitlines raw) i hir hi
  have hgetD : (pySplitlines raw).getD i [] = (pySplitlines raw)[i] :=
    List.getD_eq_getElem _ _ hi
  obtain ⟨hin, hnot⟩ := hper i hir
  rw [hsig]
  constructor
  · intro hmem
    rw [hgetD, ← horig]
    exact hin hmem
  · intro hmem
    rw [hgetD, ← horig]
    exact hnot hmem

/-- C10: for Boundary and Pass records the signature-guard fallback is
unreachable: their line numbers never enter `sig_fail_lines` and they are
emitted as the normalized original. -/
theorem c10_boundary_pass_guard (raw : Str) (opts : FormatOptions)
    (res : FormatResult) (h : format_text raw opts = Except.ok res)
    (i : Nat) (hi : i < (pySplitlines raw).length)
    (hkind : ((parse_recs opts.align_mode opts.tab_width 1
      (pySplitlines raw)).getD i default).kind ≠ Kind.cmd) :
    (i + 1) ∉ res.sig_fail_lines ∧
    (format_core raw opts).1.getD i [] =
      rstrip_ws (detab ((pySplitlines raw).getD i []) opts.tab_width) := by
  obtain ⟨hmode, _, _, hsig⟩ := format_text_ok_parts h
  have hE := format_core_emitted raw opts hmode
  obtain ⟨hlen, _, hnc⟩ := emitted_per_line hE
    (parse_recs_lineno opts.align_mode opts.tab_width (pySplitlines raw))
  have hir : i < (parse_recs opts.align_mode opts.tab_width 1
      (pySplitlines raw)).length := by
    rw [parse_recs_length]
    exact hi
  have hget : (parse_recs opts.align_mode opts.tab_width 1
      (pySplitlines raw)).getD i default =
      (parse_recs opts.align_mode opts.tab_width 1 (pySplitlines raw))[i] :=
    List.getD_eq_getElem _ _ hir
  rw [hget] at hkind
  have hnorm : (parse_recs opts.align_mode opts.tab_width 1
      (pySplitlines raw))[i].line =
      rstrip_ws (detab ((parse_recs opts.align_mode opts.tab_width 1
        (pySplitlines raw))[i]).orig opts.tab_width) :=
    parse_recs_norm _ _ _ _ _ (List.getElem_mem _)
  obtain ⟨hout, hnotin⟩ := hnc i hir hnorm hkind
  have horig : (parse_recs opts.align_mode opts.tab_width 1
      (pySplitlines raw))[i].orig = (pySplitlines raw)[i] :=
    parse_recs_orig opts.align_mode opts.tab_width (pySplitlines raw) i hir hi
  have hgetD : (pySplitlines raw).getD i [] = (pySplitlines raw)[i] :=
    List.getD_eq_getElem _ _ hi
  rw [hsig]
  refine ⟨hnotin, ?_⟩
  rw [hout, hnorm, horig, hgetD]

theorem splitlinesGo_cons_head {c : Char} (hc : isLineBreak c = true)
    (acc rest : Str) :
    ∃ t, splitlinesGo acc (c :: rest) = acc.reverse :: t := by
  by_cases hcr : c = '\r'
  · subst hcr
    cases rest with
    | nil => exact ⟨[], by simp [splitlinesGo, isLineBreak]⟩
    | cons r1 rs =>
      by_cases h1 : r1 = '\n'
      · subst h1
        exact ⟨splitlinesGo [] rs, splitlinesGo_crlf acc rs⟩
      · exact ⟨splitlinesGo [] (r1 :: rs), by simp [splitlinesGo, isLineBreak, h1]⟩
  · cases rest with
    | nil => exact ⟨[], by simp [splitlinesGo, hc, hcr]⟩
    | cons r1 rs =>
      by_cases h1 : r1 = '\n'
      · subst h1
        exact ⟨splitlinesGo [] ('\n' :: rs), by simp [splitlinesGo, hc, hcr]⟩
      · exact ⟨splitlinesGo [] (r1 :: rs), by simp [splitlinesGo, hc, hcr, h1]⟩

theorem pySplitlines_ne_nil {s : Str} (hs : s ≠ []) : pySplitlines s ≠ [] := by
  have main : ∀ (s2 acc : Str), s2 ≠ [] ∨ acc ≠ [] → splitlinesGo acc s2 ≠ [] := by
    intro s2
    induction s2 with
    | nil =>
      intro acc h
      rcases h with h | h
      · exact absurd rfl h
      · simp [splitlinesGo, h]
    | cons c rest ih =>
      intro acc _
      by_cases hc : isLineBreak c = true
      · obtain ⟨t, ht⟩ := splitlinesGo_cons_head hc acc rest
        rw [ht]
        simp
      · rw [splitlinesGo_cons_nonbreak (by simpa using hc)]
        exact ih (c :: acc) (Or.inr (by simp))
  exact main s [] (Or.inl hs)

theorem endsWithL_append (a b : Str) : endsWithL (a ++ b) b = true := by
  simp only [endsWithL, List.isSuffixOf_iff_suffix]
  exact List.suffix_append a b

/-- C3 (amended): the formatter always emits exactly one line per input
line (no line added, removed or reordered); `splitlines` of the output
reports the same count whenever the input ends with a newline (without a
final newline, a trailing whitespace-only line collapses). -/
theorem c3_line_count_amended (raw : Str) (opts : FormatOptions)
    (res : FormatResult) (h : format_text raw opts = Except.ok res) :
    (format_core raw opts).1.length = (pySplitlines raw).length ∧
    (endsWithL raw "\n".data = true →
      pySplitlines res.out_text = (format_core raw opts).1 ∧
      (pySplitlines res.out_text).length = (pySplitlines raw).length) := by
  obtain ⟨hmode, hout, _, _⟩ := format_text_ok_parts h
  have hE := format_core_emitted raw opts hmode
  obtain ⟨hlen, _, _⟩ := emitted_per_line hE
    (parse_recs_lineno opts.align_mode opts.tab_width (pySplitlines raw))
  have hlen2 : (format_core raw opts).1.length = (pySplitlines raw).length := by
    rw [hlen, parse_recs_length]
  refine ⟨hlen2, fun hends => ?_⟩
  have hkeep : (endsWithL raw "\n".data || endsWithL raw "\r\n".data) = true := by
    simp [hends]
  have hraw : raw ≠ [] := by
    intro hr
    subst hr
    exact absurd hends (by decide)
  have hne : (format_core raw opts).1 ≠ [] := by
    intro h0
    apply pySplitlines_ne_nil hraw
    apply List.eq_nil_of_length_eq_zero
    rw [← hlen2, h0]
    rfl
  have hOk : ∀ l ∈ (format_core raw opts).1, LineOk l :=
    emitted_lineOk hE (parse_recs_recLineOk _ _ raw)
  have hsplit : pySplitlines res.out_text = (format_core raw opts).1 := by
    rw [hout, if_pos hkeep]
    by_cases hcr : containsCRLF raw = true
    · rw [if_pos hcr]
      have hdata : "\r\n".data = ['\r', '\n'] := rfl
      rw [hdata]
      exact splitlines_join_newline (Or.inr rfl) _ hne hOk
    · rw [if_neg hcr]
      have hdata : "\n".data = ['\n'] := rfl
      rw [hdata]
      exact splitlines_join_newline (Or.inl rfl) _ hne hOk
  exact ⟨hsplit, by rw [hsplit, hlen2]⟩

/-- C4 (amended): the output joins the emitted lines with `\r\n` when the
input contains `\r\n` and with `\n` otherwise, and it ends with a trailing
newline whenever the input does; the converse direction of the original
claim fails when the final emitted line is empty. -/
theorem c4_newline_amended (raw : Str) (opts : FormatOptions)
    (res : FormatResult) (h : format_text raw opts = Except.ok res) :
    res.out_text =
      joinSep (if containsCRLF raw then "\r\n".data else "\n".data)
        (format_core raw opts).1 ++
      (if endsWithL raw "\n".data || endsWithL raw "\r\n".data
       then (if containsCRLF raw then "\r\n".data else "\n".data) else []) ∧
    ((endsWithL raw "\n".data || endsWithL raw "\r\n".data) = true →
      endsWithL res.out_text
        (if containsCRLF raw then "\r\n".data else "\n".data) = true) := by
  obtain ⟨_, hout, _, _⟩ := format_text_ok_parts h
  refine ⟨hout, fun hkeep => ?_⟩
  rw [hout, if_pos hkeep]
  exact endsWithL_append _ _

theorem filter_dropWhile_of_imp {p q : Char → Bool}
    (himp : ∀ c, q c = true → p c = true) (l : Str) :
    (l.dropWhile q).filter (fun c => !p c) = l.filter (fun c => !p c) := by
  induction l with
  | nil => rfl
  | cons c rest ih =>
    by_cases hc : q c = true
    · simp [List.dropWhile_cons, hc, List.filter_cons, himp c hc, ih]
    · simp [List.dropWhile_cons, hc, List.filter_cons]

theorem isCfgWs_imp_pyIsSpace : ∀ c, isCfgWs c = true → pyIsSpace c = true := by
  intro c hc
  simp only [isCfgWs, Bool.or_eq_true, decide_eq_true_eq] at hc
  rcases hc with ((((h | h) | h) | h) | h) <;> subst h <;> decide

theorem filter_rstrip_ws (l : Str) :
    (rstrip_ws l).filter (fun c => !pyIsSpace c) =
      l.filter (fun c => !pyIsSpace c) := by
  unfold rstrip_ws
  rw [List.filter_reverse, filter_dropWhile_of_imp isCfgWs_imp_pyIsSpace,
    ← List.filter_reverse, List.reverse_reverse]

theorem filter_neg_takeWhile (p : Char → Bool) (l : Str) :
    (l.takeWhile p).filter (fun c => !p c) = [] := by
  rw [List.filter_eq_nil_iff]
  intro c hc
  simp [List.mem_takeWhile_imp hc]

/-- Tokenization keeps every non-whitespace character of the code part,
in order. -/
theorem split_indent_key_rest_recon {cp i k rst : Str}
    (h : split_indent_key_rest cp = some (i, k, rst)) :
    ((i ++ k ++ rst).filter fun c => !pyIsSpace c) =
      cp.filter fun c => !pyIsSpace c := by
  unfold split_indent_key_rest at h
  obtain ⟨d, hd⟩ : ∃ d, cp.dropWhile pyIsSpace = d := ⟨_, rfl⟩
  rw [hd] at h
  cases d with
  | nil => exact absurd h (by simp)
  | cons c0 t =>
    simp only [Option.some.injEq, Prod.mk.injEq] at h
    obtain ⟨rfl, rfl, rfl⟩ := h
    have hsplit : cp.takeWhile pyIsSpace ++ (c0 :: t) = cp := by
      rw [← hd]
      exact List.takeWhile_append_dropWhile pyIsSpace cp
    have hsplit2 : (c0 :: t).takeWhile (fun c => !pyIsSpace c) ++
        (c0 :: t).dropWhile (fun c => !pyIsSpace c) = c0 :: t :=
      List.takeWhile_append_dropWhile (fun c => !pyIsSpace c) (c0 :: t)
    have hindent : ((cp.takeWhile pyIsSpace).filter fun c => !pyIsSpace c) = [] :=
      filter_neg_takeWhile pyIsSpace cp
    have hrst : ((if pyLower ((c0 :: t).takeWhile fun c => !pyIsSpace c) =
          "echo".data then (c0 :: t).dropWhile (fun c => !pyIsSpace c)
        else ((c0 :: t).dropWhile fun c => !pyIsSpace c).dropWhile
          pyIsSpace).filter fun c => !pyIsSpace c) =
        (((c0 :: t).dropWhile fun c => !pyIsSpace c).filter
          fun c => !pyIsSpace c) := by
      split
      · rfl
      · exact filter_dropWhile_of_imp (fun c hc => hc) _
    have hcp : List.filter (fun c => !pyIsSpace c) cp =
        List.filter (fun c => !pyIsSpace c) (c0 :: t) := by
      conv_lhs => rw [← hsplit]
      rw [List.filter_append, hindent, List.nil_append]
    rw [List.filter_append, List.filter_append, hrst, hindent, List.nil_append,
      ← List.filter_append, hsplit2, hcp]

/-- C5 (amended): for every line classified as a Command record, the
concatenation `indent ++ key ++ rest ++ comment` carries exactly the
non-whitespace characters of the normalized line, in order (tokenization
loses only whitespace, never content). -/
theorem c5_tokenization_amended (m : Str) (tw n : Nat) (o : Str)
    (hcmd : (parse_line m tw n o).kind = Kind.cmd) :
    (((parse_line m tw n o).indent ++ (parse_line m tw n o).key ++
      (parse_line m tw n o).rest ++ (parse_line m tw n o).comment).filter
        fun c => !pyIsSpace c) =
      (parse_line m tw n o).line.filter fun c => !pyIsSpace c := by
  unfold parse_line at hcmd ⊢
  dsimp only at hcmd ⊢
  by_cases h1 : (decide (m = "block".data) &&
      is_block_boundary_B (rstrip_ws (detab o tw))) = true
  · rw [if_pos h1] at hcmd
    cases hcmd
  · rw [if_neg h1] at hcmd ⊢
    by_cases h2 : ("//".data.isPrefixOf (pyLstrip (rstrip_ws (detab o tw)))) = true
    · rw [if_pos h2] at hcmd
      cases hcmd
    · rw [if_neg h2] at hcmd ⊢
      by_cases h3 : pyStrip (rstrip_ws (detab o tw)) = []
      · rw [if_pos h3] at hcmd
        cases hcmd
      · rw [if_neg h3] at hcmd ⊢
        rcases hfc : find_comment_pos_outside_quotes (rstrip_ws (detab o tw)) with
          _ | cpos
        · simp only [hfc] at hcmd ⊢
          rcases hikr : split_indent_key_rest (rstrip_ws (detab o tw)) with
            _ | ⟨i, k, rst⟩
          · simp only [hikr] at hcmd
            cases hcmd
          · simp only [hikr] at hcmd ⊢
            have hrec := split_indent_key_rest_recon hikr
            simpa using hrec
        · simp only [hfc] at hcmd ⊢
          rcases hikr : split_indent_key_rest
              (rstrip_ws ((rstrip_ws (detab o tw)).take cpos)) with _ | ⟨i, k, rst⟩
          · simp only [hikr] at hcmd
            cases hcmd
          · simp only [hikr] at hcmd ⊢
            have hrec := split_indent_key_rest_recon hikr
            show ((i ++ k ++ rst ++ (rstrip_ws (detab o tw)).drop cpos).filter
              fun c => !pyIsSpace c) =
              (rstrip_ws (detab o tw)).filter fun c => !pyIsSpace c
            have hregroup : i ++ k ++ rst ++ (rstrip_ws (detab o tw)).drop cpos =
                (i ++ k ++ rst) ++ (rstrip_ws (detab o tw)).drop cpos := by
              simp [List.append_assoc]
            rw [hregroup, List.filter_append, hrec, filter_rstrip_ws,
              ← List.filter_append, List.take_append_drop]

/-- The block-boundary predicate as the (amended) specification words it:
the line is whitespace-only, or equals `echo;` case-insensitively after
stripping surrounding whitespace, or is a decorative comment banner (the
left-trimmed line starts with `//`, its left-trimmed body starts with `+`,
and the body contains an asterisk or has at least 10 characters of which at
least 60 percent come from `#-_=+|`). -/
def is_block_boundary_spec (line : Str) : Prop :=
  pyStrip line = [] ∨ pyLower (pyStrip line) = "echo;".data ∨
    ("//".data.isPrefixOf (pyLstrip line) = true ∧
     "+".data.isPrefixOf (pyLstrip ((pyLstrip line).drop 2)) = true ∧
     ((pyLstrip ((pyLstrip line).drop 2)).contains '*' = true ∨
      (5 * ((pyLstrip ((pyLstrip line).drop 2)).filter fun c =>
          "#-_=+|".data.contains c).length ≥
        3 * max 1 (pyLstrip ((pyLstrip line).drop 2)).length ∧
       (pyLstrip ((pyLstrip line).drop 2)).length ≥ 10)))

theorem is_separator_comment_line_iff (line : Str) :
    is_separator_comment_line line = true ↔
      ("//".data.isPrefixOf (pyLstrip line) = true ∧
       "+".data.isPrefixOf (pyLstrip ((pyLstrip line).drop 2)) = true ∧
       ((pyLstrip ((pyLstrip line).drop 2)).contains '*' = true ∨
        (5 * ((pyLstrip ((pyLstrip line).drop 2)).filter fun c =>
            "#-_=+|".data.contains c).length ≥
          3 * max 1 (pyLstrip ((pyLstrip line).drop 2)).length ∧
         (pyLstrip ((pyLstrip line).drop 2)).length ≥ 10))) := by
  unfold is_separator_comment_line
  dsimp only
  by_cases h1 : "//".data.isPrefixOf (pyLstrip line) = true
  · simp only [h1, Bool.not_true, Bool.false_eq_true, if_false]
    by_cases h2 : "+".data.isPrefixOf (pyLstrip ((pyLstrip line).drop 2)) = true
    · simp only [h2, Bool.not_true, Bool.false_eq_true, if_false]
      by_cases h3 : (pyLstrip ((pyLstrip line).drop 2)).contains '*' = true
      · simp [h3]
      · simp [h3, Bool.and_eq_true, decide_eq_true_eq]
    · have h2f : "+".data.isPrefixOf (pyLstrip ((pyLstrip line).drop 2)) = false :=
        Bool.eq_false_iff.mpr h2
      simp [h2f]
  · have h1f : "//".data.isPrefixOf (pyLstrip line) = false :=
      Bool.eq_false_iff.mpr h1
    simp [h1f]

/-- C6 (amended): the block-mode boundary predicate holds if and only if
the line is whitespace-only (it need not be literally empty), or equals
`echo;` case-insensitively after stripping surrounding whitespace, or is a
decorative comment banner as described by the specification. -/
theorem c6_boundary_amended (line : Str) :
    is_block_boundary_B line = true ↔ is_block_boundary_spec line := by
  unfold is_block_boundary_B is_block_boundary_spec
  dsimp only
  by_cases h1 : pyLower (pyStrip line) = []
  · have hstrip : pyStrip line = [] := List.map_eq_nil_iff.mp h1
    rw [if_pos h1]
    simp only [true_iff]
    exact Or.inl hstrip
  · have hstrip : ¬pyStrip line = [] := by
      intro h
      exact h1 (by simp [pyLower, h])
    rw [if_neg h1]
    by_cases h2 : pyLower (pyStrip line) = "echo;".data
    · simp [h2]
    · rw [if_neg h2]
      by_cases h3 : is_separator_comment_line line = true
      · simp only [h3, if_true, true_iff]
        exact Or.inr (Or.inr ((is_separator_comment_line_iff line).mp h3))
      · have h3f : is_separator_comment_line line = false :=
          Bool.eq_false_iff.mpr h3
        rw [h3f]
        simp only [Bool.false_eq_true, if_false, false_iff]
        intro hcon
        rcases hcon with hc | hc | hc
        · exact hstrip hc
        · exact h2 hc
        · exact h3 ((is_separator_comment_line_iff line).mpr hc)

/-- C8: the computed key alignment column never exceeds `key_cap` and the
computed comment alignment column never exceeds `comment_cap`; content
longer than a cap is never truncated — a code part longer than the comment
column gets a single space before its comment, and a key block at or past
the value column gets a single space before its rest. -/
theorem c8_caps_respected (cmd_recs : List Rec) (key_cap comment_cap : Nat)
    (ctx : ChunkCtx) (t : Nat) (r : Rec) (tw : Nat) :
    max_key_of cmd_recs key_cap ≤ key_cap ∧
    (comment_target_of ctx cmd_recs comment_cap = some t → t ≤ comment_cap) ∧
    (r.kind = Kind.cmd → ¬r.comment = [] → (code_fmt_cmd ctx r).length > t →
      ((render_rec tw ctx (some t) r).1 =
        rstrip_ws (detab (code_fmt_cmd ctx r ++ ' ' :: r.comment) tw) ∨
       (render_rec tw ctx (some t) r).1 = rstrip_ws (detab r.orig tw))) ∧
    (¬r.keyLower = "echo".data → ¬r.rest = [] →
      ctx.value_col ≤ r.indent.length + r.key.length →
      (ctx.special.contains r.keyLower = false ∨ split_two_quoted r.rest = none) →
      code_fmt_cmd ctx r = r.indent ++ r.key ++ ' ' :: r.rest) := by
  refine ⟨?_, ?_, ?_, ?_⟩
  · unfold max_key_of
    split
    · exact Nat.zero_le key_cap
    · exact Nat.min_le_right _ _
  · intro hsome
    unfold comment_target_of at hsome
    rcases hlens : cmd_recs.filterMap fun r =>
        if r.kind = Kind.cmd && !r.comment.isEmpty then
          some (code_fmt_cmd ctx r).length
        else none with _ | ⟨l, ls⟩
    · rw [hlens] at hsome
      cases hsome
    · rw [hlens] at hsome
      have ht : t = min ((l :: ls).foldl max 0) comment_cap :=
        (Option.some.inj hsome).symm
      rw [ht]
      exact Nat.min_le_right _ _
  · intro hcmd hcom hlong
    have hknc : ¬r.kind ≠ Kind.cmd := fun h => h hcmd
    have hcom2 : (!r.comment.isEmpty) = true := by
      simp [List.isEmpty_iff, hcom]
    have hnle : ¬(code_fmt_cmd ctx r).length ≤ t := by omega
    unfold render_rec
    rw [if_neg hknc]
    dsimp only
    rw [if_pos hcom2]
    rw [if_neg hnle]
    split
    · exact Or.inl rfl
    · exact Or.inr rfl
  · intro hecho hrest hge hnone
    have hrest2 : ¬r.rest.isEmpty = true := by
      simp [List.isEmpty_iff, hrest]
    have htwoq : (if ctx.special.contains r.keyLower = true then
        split_two_quoted r.rest else none) = none := by
      rcases hnone with hn | hn
      · rw [hn]
        simp
      · split
        · exact hn
        · rfl
    have hpad : max 1 (ctx.value_col - (r.indent.length + r.key.length)) = 1 := by
      have h0 : ctx.value_col - (r.indent.length + r.key.length) = 0 :=
        Nat.sub_eq_zero_of_le hge
      rw [h0]
      decide
    unfold code_fmt_cmd
    rw [if_neg hecho, if_neg (by simpa [List.isEmpty_iff] using hrest)]
    dsimp only
    rw [htwoq]
    dsimp only
    rw [hpad]
    simp

/-- Sample command record for concrete checks: a key longer than the
(small) key cap. -/
def sampleRec : Rec := parse_line "global".data 4 1 "aaaaaa bb".data

/-- Chunk parameters of the one-record chunk `[sampleRec]` with key cap 4. -/
def sampleCtx : ChunkCtx :=
  chunk_ctx [sampleRec] 4 SPECIAL_ALIGN_KEYS_DEFAULT true

/-- Witness for C8 at a concrete chunk: the capped key column, and
single-space separation for an over-long key block. -/
theorem c8_caps_respected_witness :
    max_key_of [sampleRec] 4 ≤ 4 ∧
    code_fmt_cmd sampleCtx sampleRec =
      sampleRec.indent ++ sampleRec.key ++ ' ' :: sampleRec.rest :=
  ⟨(c8_caps_respected [sampleRec] 4 90 sampleCtx 1 sampleRec 4).1,
   (c8_caps_respected [sampleRec] 4 90 sampleCtx 1 sampleRec 4).2.2.2
     (by decide) (by decide) (by decide) (Or.inl (by decide))⟩

/-- C2 counterexample: a second `format_text` pass over the output of a
first pass does not return an empty `sig_fail_lines` list (the framed
echo-table row with doubled pipes fails the signature guard on every
pass). -/
theorem c2_idempotence_counterexample :
    ¬((resultOf (resultOf "echo a|b\necho ||a|b||\n".data
          defaultOptions).out_text defaultOptions).changed = false ∧
      (resultOf (resultOf "echo a|b\necho ||a|b||\n".data
          defaultOptions).out_text defaultOptions).sig_fail_lines = []) := by
  decide

/-- C2 (amended): re-formatting the output of a successful `format_text`
call with the same options always succeeds again (mode validity does not
depend on the input), but the second call's `sig_fail_lines` need not be
empty: on the input `echo a|b\necho ||a|b||\n` the framed echo-table row
with doubled pipes triggers the signature fallback on every pass, and the
second call reports `changed = false` together with the same non-empty
failure list `[2]` as the first call. -/
theorem c2_idempotence_amended :
    (∀ (s : Str) (opts : FormatOptions) (res : FormatResult),
        format_text s opts = Except.ok res →
        ∃ res2, format_text res.out_text opts = Except.ok res2) ∧
    (resultOf "echo a|b\necho ||a|b||\n".data defaultOptions).sig_fail_lines =
      [2] ∧
    (resultOf (resultOf "echo a|b\necho ||a|b||\n".data
        defaultOptions).out_text defaultOptions).changed = false ∧
    (resultOf (resultOf "echo a|b\necho ||a|b||\n".data
        defaultOptions).out_text defaultOptions).sig_fail_lines =
      (resultOf "echo a|b\necho ||a|b||\n".data defaultOptions).sig_fail_lines := by
  refine ⟨?_, by decide, by decide, by decide⟩
  intro s opts res h
  obtain ⟨hmode, _, _, _⟩ := format_text_ok_parts h
  have hcond : (decide (opts.align_mode = "global".data) ||
      decide (opts.align_mode = "block".data)) = true := by
    rcases hmode with h1 | h1 <;> simp [h1]
  unfold format_text
  dsimp only
  rw [if_pos hcond]
  exact ⟨_, rfl⟩

/-- Witness for the amended C2: the universal second-pass-success component
applied at a concrete successful first run. -/
theorem c2_idempotence_amended_witness :
    ∃ res2, format_text (resultOf "cmd 1\n".data defaultOptions).out_text
        defaultOptions = Except.ok res2 :=
  c2_idempotence_amended.1 "cmd 1\n".data defaultOptions
    (resultOf "cmd 1\n".data defaultOptions) (by rfl)

/-- Witness for C1 at a concrete run. -/
theorem c1_signature_invariance_witness :
    ((0 + 1) ∈ (FormatResult.mk "y\n".data false []).sig_fail_lines →
      (format_core "y\n".data defaultOptions).1.getD 0 [] =
        rstrip_ws (detab ((pySplitlines "y\n".data).getD 0 [])
          defaultOptions.tab_width)) ∧
    ((0 + 1) ∉ (FormatResult.mk "y\n".data false []).sig_fail_lines →
      sig_no_ws ((format_core "y\n".data defaultOptions).1.getD 0 []) =
        sig_no_ws ((pySplitlines "y\n".data).getD 0 [])) :=
  c1_signature_invariance "y\n".data defaultOptions ⟨"y\n".data, false, []⟩
    (by rfl) 0 (by decide)

/-- C3 counterexample: a trailing whitespace-only line without a final
newline collapses, so `splitlines` of the output has fewer lines than
`splitlines` of the input. -/
theorem c3_line_count_counterexample :
    (pySplitlines (resultOf "x\n\t".data defaultOptions).out_text).length = 1 ∧
    (pySplitlines "x\n\t".data).length = 2 := by
  refine ⟨by decide, by decide⟩

/-- Witness for the amended C3 at a concrete run. -/
theorem c3_line_count_amended_witness :
    (format_core "x\n".data defaultOptions).1.length =
      (pySplitlines "x\n".data).length ∧
    pySplitlines (FormatResult.mk "x\n".data false []).out_text =
      (format_core "x\n".data defaultOptions).1 :=
  ⟨(c3_line_count_amended "x\n".data defaultOptions ⟨"x\n".data, false, []⟩
      (by rfl)).1,
   ((c3_line_count_amended "x\n".data defaultOptions ⟨"x\n".data, false, []⟩
      (by rfl)).2 (by decide)).1⟩

/-- C4 counterexample: on `"x\n "` the output gains a trailing newline the
input did not have, refuting the only-if direction of the claim. -/
theorem c4_newline_counterexample :
    endsWithL (resultOf "x\n ".data defaultOptions).out_text "\n".data = true ∧
    endsWithL "x\n ".data "\n".data = false ∧
    endsWithL "x\n ".data "\r\n".data = false := by
  refine ⟨by decide, by decide, by decide⟩

/-- Witness for the amended C4 at a concrete run. -/
theorem c4_newline_amended_witness :
    (FormatResult.mk "a\n".data false []).out_text =
      joinSep (if containsCRLF "a\n".data then "\r\n".data else "\n".data)
        (format_core "a\n".data defaultOptions).1 ++
      (if endsWithL "a\n".data "\n".data || endsWithL "a\n".data "\r\n".data
       then (if containsCRLF "a\n".data then "\r\n".data else "\n".data)
       else []) ∧
    endsWithL (FormatResult.mk "a\n".data false []).out_text
      (if containsCRLF "a\n".data then "\r\n".data else "\n".data) = true :=
  ⟨(c4_newline_amended "a\n".data defaultOptions ⟨"a\n".data, false, []⟩
      (by rfl)).1,
   (c4_newline_amended "a\n".data defaultOptions ⟨"a\n".data, false, []⟩
      (by rfl)).2 (by decide)⟩

/-- C5 counterexample: on the command line `a  b` the concatenation
`indent ++ key ++ rest ++ comment` is `ab`, not the normalized line
`a  b` — the inter-token whitespace is dropped by tokenization. -/
theorem c5_tokenization_counterexample :
    (parse_line "global".data 4 1 "a  b".data).kind = Kind.cmd ∧
    (parse_line "global".data 4 1 "a  b".data).indent ++
      (parse_line "global".data 4 1 "a  b".data).key ++
      (parse_line "global".data 4 1 "a  b".data).rest ++
      (parse_line "global".data 4 1 "a  b".data).comment ≠
      (parse_line "global".data 4 1 "a  b".data).line := by
  refine ⟨by decide, by decide⟩

/-- Witness for the amended C5 at a concrete command line. -/
theorem c5_tokenization_amended_witness :
    (((parse_line "global".data 4 1 "cmd val".data).indent ++
      (parse_line "global".data 4 1 "cmd val".data).key ++
      (parse_line "global".data 4 1 "cmd val".data).rest ++
      (parse_line "global".data 4 1 "cmd val".data).comment).filter
        fun c => !pyIsSpace c) =
      (parse_line "global".data 4 1 "cmd val".data).line.filter
        fun c => !pyIsSpace c :=
  c5_tokenization_amended "global".data 4 1 "cmd val".data (by decide)

/-- C6 counterexample: a whitespace-only line is a block boundary although
it is not empty, does not strip to `echo;`, and is not a banner. -/
theorem c6_boundary_counterexample :
    is_block_boundary_B " ".data = true ∧ " ".data ≠ ([] : Str) ∧
    pyLower (pyStrip " ".data) ≠ "echo;".data ∧
    is_separator_comment_line " ".data = false := by
  refine ⟨by decide, by decide, by decide, by decide⟩

/-- Witness for C10 at a concrete run (a blank boundary line). -/
theorem c10_boundary_pass_guard_witness :
    (0 + 1) ∉ (FormatResult.mk "\n".data false []).sig_fail_lines ∧
    (format_core "\n".data defaultOptions).1.getD 0 [] =
      rstrip_ws (detab ((pySplitlines "\n".data).getD 0 [])
        defaultOptions.tab_width) :=
  c10_boundary_pass_guard "\n".data defaultOptions ⟨"\n".data, false, []⟩
    (by rfl) 0 (by decide) (by decide)

end Cfgfmt
